import Mathlib

/-!
Verification of the PDF resolution and caching engine
(`app/backend/step_handlers/pdf_fetch.py` and `app/backend/pdf_library.py`).

Strings of the Python source are modelled as `List Char` (Python strings are
sequences of Unicode code points); PDF bodies are modelled as `List Nat`
(byte values).  Pure helpers are translated function by function; operating
system and network effects (file reads, HTTP responses, the browser session)
enter the model as explicit oracle parameters recording the environment's
answers.
-/

namespace PdfFetch

/-! ### Python character classes and elementary string operations -/

/-- The set of characters stripped by Python `str.strip()` (the `str.isspace`
characters, which is also the set matched by the regex class `\s`). -/
def isPySpace (c : Char) : Bool :=
  c = ' ' || c = '\t' || c = '\n' || c = '\r' || c = '\x0b' || c = '\x0c' ||
  c = '\x1c' || c = '\x1d' || c = '\x1e' || c = '\x1f' || c = '\u0085' ||
  c = '\u00a0' || c = '\u1680' ||
  ('\u2000' ≤ c && c ≤ '\u200a') ||
  c = '\u2028' || c = '\u2029' || c = '\u202f' || c = '\u205f' || c = '\u3000'

def isAsciiDigit (c : Char) : Bool := '0' ≤ c && c ≤ '9'

def isAsciiAlpha (c : Char) : Bool :=
  ('a' ≤ c && c ≤ 'z') || ('A' ≤ c && c ≤ 'Z')

/-- Python `str.lower` restricted to its ASCII case mapping (the strings fed
to it by this engine — DOIs, URLs, content types — are ASCII). Written as an
explicit 26-way match so that facts about it are provable by case splits. -/
def charLower (c : Char) : Char :=
  match c with
  | 'A' => 'a' | 'B' => 'b' | 'C' => 'c' | 'D' => 'd' | 'E' => 'e'
  | 'F' => 'f' | 'G' => 'g' | 'H' => 'h' | 'I' => 'i' | 'J' => 'j'
  | 'K' => 'k' | 'L' => 'l' | 'M' => 'm' | 'N' => 'n' | 'O' => 'o'
  | 'P' => 'p' | 'Q' => 'q' | 'R' => 'r' | 'S' => 's' | 'T' => 't'
  | 'U' => 'u' | 'V' => 'v' | 'W' => 'w' | 'X' => 'x' | 'Y' => 'y'
  | 'Z' => 'z' | c => c

def lowerPy (l : List Char) : List Char := l.map charLower

/-- Remove from both ends the characters satisfying `p`
(Python `str.strip` / `str.strip(chars)`). -/
def dropEnds (p : Char → Bool) (l : List Char) : List Char :=
  ((l.dropWhile p).reverse.dropWhile p).reverse

/-- Python `str.strip()`. -/
def pyStrip (l : List Char) : List Char := dropEnds isPySpace l

/-- Python `str.strip(chars)` for an explicit character set. -/
def stripSet (cs : List Char) (l : List Char) : List Char :=
  dropEnds (fun c => cs.contains c) l

/-- Python `"needle" in hay` (substring containment; the empty needle is
contained in everything). -/
def startsWithL : List Char → List Char → Bool
  | [], _ => true
  | _ :: _, [] => false
  | a :: p, b :: l => a = b && startsWithL p l

def containsSub (needle : List Char) : List Char → Bool
  | [] => needle.isEmpty
  | c :: t => startsWithL needle (c :: t) || containsSub needle t

/-- First occurrence split: `splitFirst c l = some (a, b)` iff `l = a ++ c :: b`
with `c ∉ a`; `none` when `c` does not occur (Python `find` + slicing). -/
def splitFirst (c : Char) : List Char → Option (List Char × List Char)
  | [] => none
  | x :: t =>
    if x = c then some ([], t)
    else (splitFirst c t).map (fun p => (x :: p.1, p.2))

/-- Last occurrence split: `l = a ++ c :: b` with `c ∉ b`
(Python `str.rfind` + slicing). -/
def splitLast (c : Char) (l : List Char) : Option (List Char × List Char) :=
  (splitFirst c l.reverse).map (fun p => (p.2.reverse, p.1.reverse))

/-- Python `s.split(c, 1)[0]`: the prefix before the first occurrence of `c`
(the whole string when `c` is absent). -/
def takeBefore (c : Char) (l : List Char) : List Char :=
  l.takeWhile (fun x => x ≠ c)

/-- Python `s.replace(oneChar, "")`. -/
def removeAllChar (c : Char) (l : List Char) : List Char :=
  l.filter (fun x => x ≠ c)

/-- Python `int(s)` for a string of ASCII digits. -/
def digitsToNat (l : List Char) : Nat :=
  l.foldl (fun acc c => acc * 10 + (c.toNat - '0'.toNat)) 0

/-! ### Python `urllib.parse.unquote`

`unquote` splits the string into maximal ASCII runs, replaces `%XX` hex
escapes inside each run by the corresponding byte, decodes each resulting
byte string as UTF-8 with `errors="replace"`, and passes non-ASCII
characters through unchanged. -/

def hexVal (c : Char) : Option Nat :=
  if '0' ≤ c ∧ c ≤ '9' then some (c.toNat - '0'.toNat)
  else if 'a' ≤ c ∧ c ≤ 'f' then some (c.toNat - 'a'.toNat + 10)
  else if 'A' ≤ c ∧ c ≤ 'F' then some (c.toNat - 'A'.toNat + 10)
  else none

/-- `urllib.parse.unquote_to_bytes` on an ASCII run: replace each `%XX`
(hex) escape by its byte, keep a `%` not followed by two hex digits. -/
def pctBytes : List Char → List Nat
  | [] => []
  | '%' :: a :: b :: t =>
    match hexVal a, hexVal b with
    | some x, some y => (16 * x + y) :: pctBytes t
    | _, _ => 37 :: pctBytes (a :: b :: t)
  | '%' :: t => 37 :: pctBytes t
  | c :: t => c.toNat :: pctBytes t

/-- UTF-8 decoding with `errors="replace"` (U+FFFD for invalid sequences,
resuming at the first undecodable byte). -/
def utf8decode : List Nat → List Char
  | [] => []
  | b :: t =>
    if b < 0x80 then
      Char.ofNat b :: utf8decode t
    else if 0xC2 ≤ b ∧ b ≤ 0xDF then
      match t with
      | c :: t' =>
        if 0x80 ≤ c ∧ c ≤ 0xBF then
          Char.ofNat ((b - 0xC0) * 64 + (c - 0x80)) :: utf8decode t'
        else '�' :: utf8decode (c :: t')
      | [] => ['�']
    else if 0xE0 ≤ b ∧ b ≤ 0xEF then
      match t with
      | c :: t' =>
        let lo := if b = 0xE0 then 0xA0 else 0x80
        let hi := if b = 0xED then 0x9F else 0xBF
        if lo ≤ c ∧ c ≤ hi then
          match t' with
          | d :: t'' =>
            if 0x80 ≤ d ∧ d ≤ 0xBF then
              Char.ofNat ((b - 0xE0) * 4096 + (c - 0x80) * 64 + (d - 0x80)) ::
                utf8decode t''
            else '�' :: utf8decode (d :: t'')
          | [] => ['�']
        else '�' :: utf8decode (c :: t')
      | [] => ['�']
    else if 0xF0 ≤ b ∧ b ≤ 0xF4 then
      match t with
      | c :: t' =>
        let lo := if b = 0xF0 then 0x90 else 0x80
        let hi := if b = 0xF4 then 0x8F else 0xBF
        if lo ≤ c ∧ c ≤ hi then
          match t' with
          | d :: t'' =>
            if 0x80 ≤ d ∧ d ≤ 0xBF then
              match t'' with
              | e :: t3 =>
                if 0x80 ≤ e ∧ e ≤ 0xBF then
                  Char.ofNat ((b - 0xF0) * 262144 + (c - 0x80) * 4096 +
                    (d - 0x80) * 64 + (e - 0x80)) :: utf8decode t3
                else '�' :: utf8decode (e :: t3)
              | [] => ['�']
            else '�' :: utf8decode (d :: t'')
          | [] => ['�']
        else '�' :: utf8decode (c :: t')
      | [] => ['�']
    else '�' :: utf8decode t

/-- One maximal ASCII run, decoded. -/
def unquoteRun (run : List Char) : List Char := utf8decode (pctBytes run)

/-- Python `urllib.parse.unquote` (encoding utf-8, errors replace),
accumulating the current ASCII run in `acc` (reversed). -/
def unquoteGo : List Char → List Char → List Char
  | [], acc => unquoteRun acc.reverse
  | c :: t, acc =>
    if c.toNat < 0x80 then unquoteGo t (c :: acc)
    else unquoteRun acc.reverse ++ c :: unquoteGo t []

def unquotePy (l : List Char) : List Char := unquoteGo l []

/-! ### `normalize_doi` (`pdf_library.py`) -/

/-- The regex `^10\.\d{4,9}/\S+$`: `10.`, four to nine digits, `/`, then a
nonempty run of non-whitespace — where the final `$` also accepts a single
trailing newline (Python `$` semantics). -/
def doiShape (l : List Char) : Bool :=
  match l with
  | '1' :: '0' :: '.' :: rest =>
    let ds := rest.takeWhile isAsciiDigit
    let rest2 := rest.drop ds.length
    decide (4 ≤ ds.length) && decide (ds.length ≤ 9) &&
    (match rest2 with
     | '/' :: tail =>
       let core := if tail.getLast? = some '\n' then tail.dropLast else tail
       (!core.isEmpty) && core.all (fun c => !isPySpace c)
     | _ => false)
  | _ => false

/-- Case-insensitive literal prefix: if (the lowering of) `l` starts with the
(lowercase) pattern `pat`, return the remainder. -/
def ciDrop : List Char → List Char → Option (List Char)
  | [], l => some l
  | _ :: _, [] => none
  | p :: ps, c :: cs => if charLower c = p then ciDrop ps cs else none

/-- `re.sub(r"(?i)^https?://(dx\.)?doi\.org/", "", value)`. -/
def stripDoiUrlScheme (l : List Char) : List Char :=
  match ciDrop ['h', 't', 't', 'p'] l with
  | none => l
  | some r1 =>
    let r2 := match ciDrop ['s'] r1 with
              | some r => r
              | none => r1
    match ciDrop [':', '/', '/'] r2 with
    | none => l
    | some r3 =>
      match ciDrop ['d', 'x', '.'] r3 with
      | some r4 =>
        match ciDrop ['d', 'o', 'i', '.', 'o', 'r', 'g', '/'] r4 with
        | some r5 => r5
        | none =>
          match ciDrop ['d', 'o', 'i', '.', 'o', 'r', 'g', '/'] r3 with
          | some r5 => r5
          | none => l
      | none =>
        match ciDrop ['d', 'o', 'i', '.', 'o', 'r', 'g', '/'] r3 with
        | some r5 => r5
        | none => l

/-- `re.sub(r"(?i)^doi:\s*", "", value)`. -/
def stripDoiLabelScheme (l : List Char) : List Char :=
  match ciDrop ['d', 'o', 'i', ':'] l with
  | some r => r.dropWhile isPySpace
  | none => l

/-- `normalize_doi` from `pdf_library.py`.  `none` models Python `None`
(both a `None` argument and a rejected value). -/
def normalize_doi (raw : Option (List Char)) : Option (List Char) :=
  match raw with
  | none => none
  | some raw0 =>
    let v1 := pyStrip raw0
    if v1.isEmpty then none
    else
      let v2 := stripSet ['\x7b', '\x7d'] v1
      let v3 := unquotePy v2
      let v4 := removeAllChar '\\' v3
      let v5 := pyStrip v4
      let v6 := stripDoiUrlScheme v5
      let v7 := stripDoiLabelScheme v6
      let v8 := stripSet ['/'] (pyStrip (takeBefore '#' (takeBefore '?' v7)))
      let v9 := lowerPy v8
      if v9.isEmpty then none
      else if doiShape v9 then some v9 else none

/-- `normalize_doi` on Lean strings. -/
def normalize_doiS (raw : Option String) : Option String :=
  (normalize_doi (raw.map String.data)).map (fun l => String.mk l)

/-! ### Python `urllib.parse.urlparse` (3.11 semantics) and `normalize_url` -/

/-- The WHATWG "C0 control or space" set stripped from the left by
`urlsplit`. -/
def isC0OrSpace (c : Char) : Bool := c.toNat ≤ 0x20

/-- Tab, carriage return and line feed are removed everywhere by
`urlsplit`. -/
def isUnsafeUrlByte (c : Char) : Bool := c = '\t' || c = '\r' || c = '\n'

/-- `urllib.parse.scheme_chars`. -/
def isSchemeChar (c : Char) : Bool :=
  isAsciiAlpha c || isAsciiDigit c || c = '+' || c = '-' || c = '.'

def isNetlocDelim (c : Char) : Bool := c = '/' || c = '?' || c = '#'

structure UrlParts where
  scheme : List Char
  netloc : List Char
  path : List Char
  query : List Char
  fragment : List Char
  deriving Repr, DecidableEq

/-- The scheme split step of `urlsplit`: at the first `:`, when the part
before it starts with an ASCII letter and continues with scheme characters,
the (lowered) scheme and the rest; otherwise no scheme and the whole
input. -/
def schemeSplit (u1 : List Char) : List Char × List Char :=
  match splitFirst ':' u1 with
  | some (p0 :: pt, post) =>
    if isAsciiAlpha p0 ∧ pt.all isSchemeChar then (lowerPy (p0 :: pt), post)
    else ([], u1)
  | _ => ([], u1)

/-- The netloc split step of `urlsplit`: after a leading `//`, the netloc
runs to the first `/`, `?` or `#`. -/
def netlocSplit (r1 : List Char) : List Char × List Char :=
  match r1 with
  | '/' :: '/' :: r =>
    (r.takeWhile (fun c => !isNetlocDelim c), r.dropWhile (fun c => !isNetlocDelim c))
  | _ => ([], r1)

/-- The fragment split of `urlsplit`: everything after the first `#`. -/
def fragSplit (r2 : List Char) : List Char × List Char :=
  match splitFirst '#' r2 with
  | some (a, b) => (a, b)
  | none => (r2, [])

/-- The query split of `urlsplit`: everything after the first `?`. -/
def querySplit (r2 : List Char) : List Char × List Char :=
  match splitFirst '?' r2 with
  | some (a, b) => (a, b)
  | none => (r2, [])

/-- `urllib.parse.urlsplit` (Python 3.11): lstrip C0-control-or-space,
remove tab/CR/LF, split off a scheme (first char ASCII alpha, remaining
scheme characters, ending at the first `:`), a `//`-introduced netloc
(ending at the first `/`, `?` or `#`; mismatched square brackets raise
`ValueError`, modelled as `Except.error`), the fragment at the first `#`
and the query at the first `?`. -/
def urlsplit (u0 : List Char) : Except Unit UrlParts :=
  let u1 := (u0.dropWhile isC0OrSpace).filter (fun c => !isUnsafeUrlByte c)
  let sr := schemeSplit u1
  let nr := netlocSplit sr.2
  if ('[' ∈ nr.1 ∧ ']' ∉ nr.1) ∨ (']' ∈ nr.1 ∧ '[' ∉ nr.1) then
    .error ()
  else
    let fr := fragSplit nr.2
    let qr := querySplit fr.1
    .ok ⟨sr.1, nr.1, qr.1, qr.2, fr.2⟩

/-- `urllib.parse._splitparams`, applied by `urlparse` to the path of a
scheme that uses parameters (`http` and `https` both do): drop everything
after the first `;` that follows the last `/` (or the first `;` at all when
there is no `/`). -/
def splitSemiParams (p : List Char) : List Char :=
  if ';' ∈ p then
    if '/' ∈ p then
      match splitLast '/' p with
      | some (a, b) =>
        match splitFirst ';' b with
        | some (b1, _) => a ++ '/' :: b1
        | none => p
      | none => p
    else
      match splitFirst ';' p with
      | some (p1, _) => p1
      | none => p
  else p

/-- `normalize_url` from `pdf_library.py`.  `Except.error` models the
(uncaught) `ValueError` that `urlparse` raises on mismatched `[`/`]` in the
netloc; `ok none` models returning Python `None`. -/
def normalize_url (raw : Option (List Char)) : Except Unit (Option (List Char)) :=
  match raw with
  | none => .ok none
  | some raw0 =>
    let v := stripSet ['\x7b', '\x7d'] (pyStrip raw0)
    if v.isEmpty then .ok none
    else
      match urlsplit v with
      | .error e => .error e
      | .ok parsed =>
        if parsed.scheme = ['h', 't', 't', 'p'] ∨
           parsed.scheme = ['h', 't', 't', 'p', 's'] then
          let host := lowerPy parsed.netloc
          let path := splitSemiParams parsed.path
          if host.isEmpty then .ok none
          else
            .ok (some (lowerPy parsed.scheme ++ [':', '/', '/'] ++ host ++ path ++
              (if parsed.query.isEmpty then [] else '?' :: parsed.query)))
        else .ok none

/-- `normalize_url` on Lean strings. -/
def normalize_urlS (raw : Option String) : Except Unit (Option String) :=
  (normalize_url (raw.map String.data)).map (Option.map (fun l => String.mk l))

/-! ### Truthiness helpers -/

/-- Python truthiness of an optional string (`None` and `""` are falsy). -/
def optTruthy (o : Option String) : Option String :=
  match o with
  | some s => if s = "" then none else some s
  | none => none

/-- Python `a or b` on optional strings. -/
def orStr (a b : Option String) : Option String :=
  match optTruthy a with
  | some s => some s
  | none => b

/-! ### `hashlib.sha256` (used for record ids and managed file names) -/

def w32 (x : Nat) : Nat := x % 4294967296

def rotr32 (n x : Nat) : Nat := w32 ((x >>> n) + ((x % (1 <<< n)) <<< (32 - n)))

def sha256K : List Nat :=
  [1116352408, 1899447441, 3049323471, 3921009573, 961987163, 1508970993, 2453635748, 2870763221,
   3624381080, 310598401, 607225278, 1426881987, 1925078388, 2162078206, 2614888103, 3248222580,
   3835390401, 4022224774, 264347078, 604807628, 770255983, 1249150122, 1555081692, 1996064986,
   2554220882, 2821834349, 2952996808, 3210313671, 3336571891, 3584528711, 113926993, 338241895,
   666307205, 773529912, 1294757372, 1396182291, 1695183700, 1986661051, 2177026350, 2456956037,
   2730485921, 2820302411, 3259730800, 3345764771, 3516065817, 3600352804, 4094571909, 275423344,
   430227734, 506948616, 659060556, 883997877, 958139571, 1322822218, 1537002063, 1747873779,
   1955562222, 2024104815, 2227730452, 2361852424, 2428436474, 2756734187, 3204031479, 3329325298]

def sha256H0 : List Nat :=
  [1779033703, 3144134277, 1013904242, 2773480762, 1359893119, 2600822924, 528734635, 1541459225]

/-- Big-endian bytes of `n`, `count` bytes wide. -/
def toBytesBE (count n : Nat) : List Nat :=
  (List.range count).map (fun i => (n >>> (8 * (count - 1 - i))) % 256)

def sha256Pad (msg : List Nat) : List Nat :=
  let len := msg.length
  let z := (119 - len % 64) % 64
  msg ++ 128 :: List.replicate z 0 ++ toBytesBE 8 (len * 8)

def bytesToWordsBE : List Nat → List Nat
  | b0 :: b1 :: b2 :: b3 :: t =>
    ((b0 <<< 24) + (b1 <<< 16) + (b2 <<< 8) + b3) :: bytesToWordsBE t
  | _ => []

def chunksOf64 (l : List Nat) : List (List Nat) :=
  if l.isEmpty then [] else l.take 64 :: chunksOf64 (l.drop 64)
termination_by l.length
decreasing_by
  simp only [List.length_drop]
  cases l with
  | nil => simp_all [List.isEmpty]
  | cons a t => simp; omega

def scheduleExtend : Nat → List Nat → List Nat
  | 0, w => w
  | n + 1, w =>
    let i := w.length
    let x15 := w.getD (i - 15) 0
    let x2 := w.getD (i - 2) 0
    let s0 := (rotr32 7 x15) ^^^ (rotr32 18 x15) ^^^ (x15 >>> 3)
    let s1 := (rotr32 17 x2) ^^^ (rotr32 19 x2) ^^^ (x2 >>> 10)
    scheduleExtend n (w ++ [w32 (w.getD (i - 16) 0 + s0 + w.getD (i - 7) 0 + s1)])

structure Sha8 where
  a : Nat
  b : Nat
  c : Nat
  d : Nat
  e : Nat
  f : Nat
  g : Nat
  h : Nat

def sha256Round (st : Sha8) (kw : Nat × Nat) : Sha8 :=
  let S1 := (rotr32 6 st.e) ^^^ (rotr32 11 st.e) ^^^ (rotr32 25 st.e)
  let ch := (st.e &&& st.f) ^^^ ((st.e ^^^ 4294967295) &&& st.g)
  let t1 := w32 (st.h + S1 + ch + kw.1 + kw.2)
  let S0 := (rotr32 2 st.a) ^^^ (rotr32 13 st.a) ^^^ (rotr32 22 st.a)
  let mj := (st.a &&& st.b) ^^^ (st.a &&& st.c) ^^^ (st.b &&& st.c)
  let t2 := w32 (S0 + mj)
  ⟨w32 (t1 + t2), st.a, st.b, st.c, w32 (st.d + t1), st.e, st.f, st.g⟩

def sha256Block (hs : List Nat) (block : List Nat) : List Nat :=
  let w := scheduleExtend 48 (bytesToWordsBE block)
  let st0 : Sha8 := ⟨hs.getD 0 0, hs.getD 1 0, hs.getD 2 0, hs.getD 3 0,
                     hs.getD 4 0, hs.getD 5 0, hs.getD 6 0, hs.getD 7 0⟩
  let st := (sha256K.zip w).foldl sha256Round st0
  [w32 (hs.getD 0 0 + st.a), w32 (hs.getD 1 0 + st.b), w32 (hs.getD 2 0 + st.c),
   w32 (hs.getD 3 0 + st.d), w32 (hs.getD 4 0 + st.e), w32 (hs.getD 5 0 + st.f),
   w32 (hs.getD 6 0 + st.g), w32 (hs.getD 7 0 + st.h)]

def hexChar (n : Nat) : Char :=
  if n < 10 then Char.ofNat ('0'.toNat + n) else Char.ofNat ('a'.toNat + n - 10)

def wordToHex (x : Nat) : List Char :=
  (List.range 8).map (fun i => hexChar ((x >>> (4 * (7 - i))) % 16))

/-- Lowercase hex digest of the SHA-256 of a byte list. -/
def sha256Hex (msg : List Nat) : List Char :=
  (((chunksOf64 (sha256Pad msg)).foldl sha256Block sha256H0).map wordToHex).flatten

/-- UTF-8 encoding of a character (Python `str.encode("utf-8")`). -/
def utf8EncodeChar (c : Char) : List Nat :=
  let n := c.toNat
  if n < 128 then [n]
  else if n < 2048 then [192 + n / 64, 128 + n % 64]
  else if n < 65536 then [224 + n / 4096, 128 + (n / 64) % 64, 128 + n % 64]
  else [240 + n / 262144, 128 + (n / 4096) % 64, 128 + (n / 64) % 64, 128 + n % 64]

def utf8Encode (l : List Char) : List Nat := (l.map utf8EncodeChar).flatten

/-! ### Canonical keys and managed paths (`pdf_library.py`) -/

/-- The bibliographic-entry fields read by the engine.  The Python entry is a
free-form dict; the engine reads `ID`, `doi`/`DOI`, `url`, `title` directly,
and its remaining reads (`file`/`pdf`/`fulltext`/`local_pdf`/`eprint`,
`_source_import`, `_source_category`) happen only inside the local-file and
candidate oracles of the run model. -/
structure Entry where
  ID : Option String
  doi : Option String
  DOI : Option String
  url : Option String
  URL : Option String
  title : Option String
  deriving Repr, DecidableEq

/-- `canonical_key_for_entry`.  The `Except.error` propagates the
`ValueError` that `normalize_url` can raise; the DOI branch is evaluated
first, exactly as in the source. -/
def canonical_key_for_entry (e : Entry) : Except Unit (Option String) :=
  match normalize_doiS (orStr e.doi e.DOI) with
  | some d => .ok (some ("doi:" ++ d))
  | none =>
    match normalize_urlS (orStr e.url e.URL) with
    | .ok (some u) => .ok (some ("url:" ++ u))
    | .ok none => .ok none
    | .error er => .error er

/-- `key_to_record_id`: first 16 hex digits of the SHA-256 of the key. -/
def key_to_record_id (key : String) : String :=
  String.mk ((sha256Hex (utf8Encode key.data)).take 16)

/-- `managed_pdf_path_for_key`.  The files directory is environment
dependent (`PDF_LIBRARY_DIR`), so it is passed explicitly. -/
def managed_pdf_path_for_key (filesDir : String) (key : String) : String :=
  filesDir ++ "/" ++ String.mk (sha256Hex (utf8Encode key.data)) ++ ".pdf"

/-! ### The record store (`pdf_library.py`)

The persisted index is `{"version": ..., "records": {...}}`; every library
operation touches only the `records` mapping, modelled as an association
list in insertion order (Python dicts preserve insertion order).
`utcnow_iso()` and `file_size()` read the clock and the filesystem, so the
mark operations receive their values (`now`, `fsize`) as parameters. -/

structure PdfRecord where
  id : String
  key : String
  doi : Option String
  year : Option String
  database : Option String
  title : String
  status : String
  pdf_path : Option String
  managed_file : Bool
  source : Option String
  source_url : Option String
  provider : Option String
  content_type : Option String
  size_bytes : Option Nat
  project_ids : List String
  step_ids : List String
  entry_keys : List String
  missing_reason : Option String
  failure_count : Nat
  created_at : String
  updated_at : String
  last_checked_at : String
  deriving Repr, DecidableEq

abbrev Index : Type := List (String × PdfRecord)

/-- Python `records.get(key)`. -/
def lookupRecord : Index → String → Option PdfRecord
  | [], _ => none
  | (k', r) :: t, key => if k' = key then some r else lookupRecord t key

/-- Python dict assignment `records[key] = r`: replace in place, else
append. -/
def setRecord : Index → String → PdfRecord → Index
  | [], k, r => [(k, r)]
  | (k', r') :: t, k, r =>
    if k' = k then (k, r) :: t else (k', r') :: setRecord t k r

/-- Python `del records[key]` (first binding). -/
def removeKey : Index → String → Index
  | [], _ => []
  | (k', r') :: t, k => if k' = k then t else (k', r') :: removeKey t k

/-- The fresh record built by `_ensure_record` for an unknown key. -/
def freshRecord (key : String) (title : Option String) (now : String) : PdfRecord :=
  { id := key_to_record_id key
    key := key
    doi := if key.startsWith "doi:" then some (key.drop 4) else none
    year := none
    database := none
    title := (optTruthy title).getD ""
    status := "missing"
    pdf_path := none
    managed_file := false
    source := none
    source_url := none
    provider := none
    content_type := none
    size_bytes := none
    project_ids := []
    step_ids := []
    entry_keys := []
    missing_reason := some "not_checked"
    failure_count := 0
    created_at := now
    updated_at := now
    last_checked_at := now }

/-- `_ensure_record`: get-or-create, plus the late title fix
(`if title and not record.get("title")`).  Returns the updated index and the
record it holds for `key` (the Python code mutates the aliased dict; the
functional model writes the record back). -/
def ensureRecord (idx : Index) (key : String) (title : Option String) (now : String) :
    Index × PdfRecord :=
  let base := match lookupRecord idx key with
              | some r => r
              | none => freshRecord key title now
  let r := match optTruthy title with
           | some t => if base.title = "" then { base with title := t } else base
           | none => base
  (setRecord idx key r, r)

/-- `add_record_references` on a single list: append the value when it is
truthy and not already present. -/
def addRef (items : List String) (v : Option String) : List String :=
  match optTruthy v with
  | none => items
  | some s => if s ∈ items then items else items ++ [s]

/-- `mark_record_found`.  `pdf_path` is the already-resolved path string
(`str(pdf_path.resolve())`), `fsize` the `file_size(pdf_path)` answer. -/
def mark_record_found (idx : Index) (key : String)
    (title year database : Option String)
    (pdf_path : String) (managed_file : Bool) (source : String)
    (source_url provider content_type : Option String)
    (project_id step_id entry_key : Option String)
    (now : String) (fsize : Option Nat) : Index × PdfRecord :=
  let er := ensureRecord idx key title now
  let r0 := er.2
  let r1 : PdfRecord :=
    { r0 with
      status := "found"
      title := (optTruthy title).getD r0.title
      year := match optTruthy year with
              | some y => some y
              | none => r0.year
      database := match optTruthy database with
                  | some d => some d
                  | none => r0.database
      pdf_path := some pdf_path
      managed_file := managed_file
      source := some source
      source_url := source_url
      provider := provider
      content_type := content_type
      size_bytes := fsize
      missing_reason := none
      last_checked_at := now
      updated_at := now }
  let r2 : PdfRecord :=
    { r1 with
      project_ids := addRef r1.project_ids project_id
      step_ids := addRef r1.step_ids step_id
      entry_keys := addRef r1.entry_keys entry_key }
  (setRecord er.1 key r2, r2)

/-- `mark_record_missing`. -/
def mark_record_missing (idx : Index) (key : String)
    (title year database : Option String) (reason : String)
    (project_id step_id entry_key : Option String)
    (now : String) : Index × PdfRecord :=
  let er := ensureRecord idx key title now
  let r0 := er.2
  let r1 : PdfRecord :=
    { r0 with
      status := "missing"
      title := (optTruthy title).getD r0.title
      year := match optTruthy year with
              | some y => some y
              | none => r0.year
      database := match optTruthy database with
                  | some d => some d
                  | none => r0.database
      missing_reason := some reason
      failure_count := r0.failure_count + 1
      last_checked_at := now
      updated_at := now }
  let r2 : PdfRecord :=
    { r1 with
      project_ids := addRef r1.project_ids project_id
      step_ids := addRef r1.step_ids step_id
      entry_keys := addRef r1.entry_keys entry_key }
  (setRecord er.1 key r2, r2)

/-- `get_record_by_id`: the first record (dict iteration order) whose `id`
matches. -/
def get_record_by_id : Index → String → Option (String × PdfRecord)
  | [], _ => none
  | (k, r) :: t, record_id =>
    if r.id = record_id then some (k, r) else get_record_by_id t record_id

structure DeleteOutcome where
  index : Index
  record_id : String
  removed_file : Bool
  removed_path : Option String
  deriving Repr, DecidableEq

/-- `delete_record`.  The source loads the index itself and saves it back;
the model receives the loaded index and returns the saved one.  `fileExists`
answers `Path.exists()`; an unlink is reported through
`removed_file`/`removed_path`.  `Except.error` models the raised
`KeyError(record_id)`. -/
def delete_record (idx : Index) (fileExists : String → Bool)
    (record_id : String) (delete_file : Bool) : Except String DeleteOutcome :=
  match get_record_by_id idx record_id with
  | none => .error record_id
  | some (key, record) =>
    let path_text := optTruthy record.pdf_path
    let removed_file :=
      delete_file && path_text.isSome && record.managed_file &&
      (match path_text with
       | some p => fileExists p
       | none => false)
    let removed_path := if removed_file then path_text else none
    .ok { index := removeKey idx key
          record_id := record_id
          removed_file := removed_file
          removed_path := removed_path }

/-- `guess_title`: strip, then remove every brace. -/
def guess_title (e : Entry) : String :=
  String.mk (removeAllChar '\x7d' (removeAllChar '\x7b'
    (pyStrip ((e.title.getD "").data))))

/-! ### `is_pdf_likely_for_doi` and the cached variant (`pdf_fetch.py`) -/

/-- `is_pdf_likely_for_doi`: heuristic guard against saving clearly
unrelated PDFs.  `body` is the byte string, scanned over its first
2,000,000 bytes after a latin-1 decode and lowering. -/
def is_pdf_likely_for_doi (body : List Nat) (final_url : String)
    (doi : Option String) : Bool :=
  match optTruthy doi with
  | none => true
  | some d =>
    match normalize_doi (some d.data) with
    | none => true
    | some normalized =>
      let short := match splitFirst '/' normalized with
                   | some p => p.2
                   | none => normalized
      let normalized_url := lowerPy (unquotePy final_url.data)
      if containsSub normalized normalized_url then true
      else if (!short.isEmpty) && decide (6 ≤ short.length) &&
              containsSub short normalized_url then true
      else
        let sample := lowerPy ((body.take 2000000).map Char.ofNat)
        if containsSub normalized sample then true
        else if (!short.isEmpty) && decide (6 ≤ short.length) &&
                containsSub short sample then true
        else false

/-- `is_cached_pdf_likely_for_doi`.  `readResult` is the outcome of reading
the first 2,000,000 bytes of the cached file (`none` when the read raises,
which the source treats as "likely"). -/
def is_cached_pdf_likely_for_doi (readResult : Option (List Nat))
    (source_url : Option String) (doi : Option String) : Bool :=
  match optTruthy doi with
  | none => true
  | some _ =>
    match readResult with
    | none => true
    | some sample => is_pdf_likely_for_doi sample (source_url.getD "") doi

/-! ### `fetch_pdf_bytes` (`pdf_fetch.py`)

The HTTP exchange is an oracle input: `none` models any raised exception
(connection error, timeout), `some resp` the streamed response. -/

structure HttpResp where
  status : Nat
  content_length : Option String
  content_type : Option String
  chunks : List (List Nat)
  final_url : String
  deriving Repr, DecidableEq

def startsWithB : List Nat → List Nat → Bool
  | [], _ => true
  | _ :: _, [] => false
  | a :: p, b :: l => a = b && startsWithB p l

/-- The streaming loop: skip empty chunks, abort as soon as the running
size exceeds `maxBytes`. -/
def readChunksCapped (maxBytes : Nat) : List (List Nat) → Nat → Option (List Nat)
  | [], _ => some []
  | ch :: t, size =>
    if ch.isEmpty then readChunksCapped maxBytes t size
    else if maxBytes < size + ch.length then none
    else (readChunksCapped maxBytes t (size + ch.length)).map (fun rest => ch ++ rest)

def pdfMagic : List Nat := [37, 80, 68, 70, 45]

/-- `fetch_pdf_bytes`. -/
def fetch_pdf_bytes (resp? : Option HttpResp) (max_pdf_mb : Nat) :
    Option (List Nat × String × String) :=
  let maxBytes := max_pdf_mb * 1024 * 1024
  match resp? with
  | none => none
  | some resp =>
    if resp.status ≠ 200 then none
    else
      let clBad :=
        match resp.content_length with
        | some cl =>
          (!cl.isEmpty) && cl.data.all isAsciiDigit &&
          decide (maxBytes < digitsToNat cl.data)
        | none => false
      if clBad then none
      else
        match readChunksCapped maxBytes resp.chunks 0 with
        | none => none
        | some body =>
          if body.isEmpty then none
          else
            let content_type := lowerPy (resp.content_type.getD "").data
            if (!containsSub ['p', 'd', 'f'] content_type) &&
               (!startsWithB pdfMagic body) then none
            else some (body, resp.final_url, String.mk content_type)

/-! ### `load_pdf_index` (`pdf_library.py`)

The backing file is modelled at the JSON level: `absent` (the file does not
exist), `unreadable` (opening or `json.load` raises), or `parsed v`. -/

inductive JValue where
  | null
  | bool (b : Bool)
  | num (n : Int)
  | str (s : String)
  | arr (items : List JValue)
  | obj (fields : List (String × JValue))

inductive IndexFileState where
  | absent
  | unreadable
  | parsed (v : JValue)

def emptyIndexJson : List (String × JValue) :=
  [("version", .str "1.0"), ("records", .obj [])]

/-- Python `data.get(k)` on a JSON object. -/
def lookupJ : List (String × JValue) → String → Option JValue
  | [], _ => none
  | (k', v) :: t, k => if k' = k then some v else lookupJ t k

/-- Python dict assignment on a JSON object. -/
def setJ : List (String × JValue) → String → JValue → List (String × JValue)
  | [], k, v => [(k, v)]
  | (k', v') :: t, k, v =>
    if k' = k then (k, v) :: t else (k', v') :: setJ t k v

def JValue.isObj : JValue → Bool
  | .obj _ => true
  | _ => false

/-- `load_pdf_index`: an empty index on a missing/unreadable file or a
non-object document; otherwise the parsed object with `records` replaced by
`{}` when missing or not an object, and `version` defaulted to `"1.0"` when
absent. -/
def load_pdf_index (file : IndexFileState) : List (String × JValue) :=
  match file with
  | .absent => emptyIndexJson
  | .unreadable => emptyIndexJson
  | .parsed v =>
    match v with
    | .obj fields =>
      let f1 := match lookupJ fields "records" with
                | some (.obj r) => (fun (_ : List (String × JValue)) => fields) r
                | _ => setJ fields "records" (.obj [])
      if (lookupJ f1 "version").isSome then f1
      else setJ f1 "version" (.str "1.0")
    | _ => emptyIndexJson

/-! ### The orchestrator: `PdfFetchHandler.run` (`pdf_fetch.py`, lines 829-1313)

Network, filesystem, clock and browser effects are oracle fields of `Env`.
The candidate-generation/direct-download loop (lines 978-1064) is abstracted
as the oracle `direct`, which reports its observable outcome per entry: the
final expanded candidate list, the providers attempted, and the first
successful fetch, if any; none of the run-level claims depends on the loop's
internals.  `pyStripS` etc. lift the character-level helpers to `String`. -/

def pyStripS (s : String) : String := String.mk (pyStrip s.data)

def missingReasonLabels : List (String × String) :=
  [("pdf_not_resolved", "No downloadable PDF found from known sources."),
   ("browser_assist_unresolved",
    "Browser assist timed out before a PDF became downloadable."),
   ("browser_assist_unavailable",
    "Browser assist could not start (Playwright or browser runtime unavailable)."),
   ("browser_assist_error", "Browser assist failed while trying to fetch the PDF."),
   ("not_found", "PDF was not resolved.")]

def missingReasonHints : List (String × String) :=
  [("pdf_not_resolved",
    "Try re-run with browser assist enabled and complete publisher login first."),
   ("browser_assist_unresolved",
    "Keep the opened browser window on the publisher page until challenge/login is completed."),
   ("browser_assist_unavailable",
    "Install Playwright and run 'playwright install chromium' in the backend runtime environment."),
   ("browser_assist_error",
    "Retry once; if repeated, inspect backend logs for the specific browser/network error."),
   ("not_found", "Try re-run with browser assist enabled.")]

def missing_reason_label (reason : Option String) : Option String :=
  match optTruthy reason with
  | none => none
  | some r =>
    some ((List.find? (fun p => p.1 = r) missingReasonLabels).elim r (fun p => p.2))

def missing_reason_hint (reason : Option String) : Option String :=
  match optTruthy reason with
  | none => none
  | some r => (List.find? (fun p => p.1 = r) missingReasonHints).map (fun p => p.2)

/-- The configuration keys of the step that shape the control flow.  The
fields are the raw `config.get` results (`none` = key absent): the two
reads of `browser_assist_enabled` in the source use different defaults.
`timeout_sec`, the browser profile/wait/headed knobs and
`unpaywall_email` only parameterize the network/browser oracles.
`project_id`/`step_id` carry `str(config.get(..., "")).strip() or None`. -/
structure RunConfig where
  pass_mode : Option String
  reuse_cache : Option Bool
  download_enabled : Option Bool
  browser_assist_enabled : Option Bool
  max_pdf_mb : Option Nat
  project_id : Option String
  step_id : Option String

/-- `str(config.get("pass_mode", "all")).strip()`, defaulted to `"all"`
when not one of the two modes. -/
def effPassMode (cfg : RunConfig) : String :=
  let pm := pyStripS (cfg.pass_mode.getD "all")
  if pm = "all" ∨ pm = "pdf_only" then pm else "all"

structure DirectHit where
  url : String
  provider : String
  body : List Nat
  final_url : String
  content_type : String
  deriving Repr, DecidableEq

/-- Observable outcome of the direct-download loop for one entry:
`candidates` is the final (landing-page-expanded) candidate list,
`providers` the attempted provider labels, `hit` the first fetch that
succeeded. -/
structure DirectOutcome where
  candidates : List (String × String)
  providers : List String
  hit : Option DirectHit
  deriving Repr, DecidableEq

structure BStats where
  cands : Nat
  tried : Nat
  page_url : Option String
  deriving Repr, DecidableEq

/-- Outcome of one `BrowserAssistSession.resolve_pdf` call: a validated
PDF, a timeout (`None` in the source), or a raised exception.  `stats`
carries the session's `last_candidate_count`/`last_tried_count`/
`last_page_url`, read in the `finally` block in every case. -/
inductive BrowserCall where
  | resolved (body : List Nat) (final_url : String) (content_type : String)
      (provider : String) (stats : BStats)
  | timeout (stats : BStats)
  | raised (err : String) (stats : BStats)

/-- A started browser-assist session: the oracle answer of its
`resolve_pdf` method per entry position. -/
structure BrowserSess where
  resolveAt : Nat → BrowserCall

/-- The run's environment: the loaded index, the managed-files directory,
the clock, filesystem answers, and the per-entry network/browser oracles
(indexed by the entry's position in the batch). -/
structure Env where
  index0 : Index
  filesDir : String
  now : String
  fileExists : String → Bool
  readFile2M : String → Option (List Nat)
  fileSize : String → Option Nat
  localPaths : Nat → List String
  direct : Nat → DirectOutcome
  browserStart : Nat → Except String BrowserSess

/-- The loop-carried state of a run (the index plus the mutable browser
bookkeeping and counters of lines 859-874). -/
structure LoopState where
  index : Index
  browser_assist_enabled : Bool
  session : Option BrowserSess
  browser_available : Bool
  browser_attempted : Nat
  browser_resolved : Nat
  browser_errors : Nat
  browser_last_error : Option String
  cache_hits : Nat
  local_hits : Nat
  downloaded_count : Nat

/-- The per-entry `details` payload (lines 1184-1213). -/
structure Details where
  pdf_status : String
  pdf_path : Option String
  source : Option String
  provider : Option String
  source_url : Option String
  pdf_record_id : Option String
  doi : Option String
  cache_key : Option String
  browser_assist_used : Bool
  browser_assist_result : Option String
  missing_reason : Option String
  missing_reason_label : Option String
  missing_reason_hint : Option String
  attempted_providers : List String
  candidate_count : Nat
  browser_assist_candidates : Option Nat
  browser_assist_tried : Option Nat
  browser_assist_page_url : Option String
  deriving Repr, DecidableEq

structure Change where
  key : String
  action : String
  reason : String
  details : Details
  deriving Repr, DecidableEq

/-- The per-entry mutable variables of lines 891-903 (plus the canonical
key, which lines 1031-1036/1129-1134 may overwrite). -/
structure EntryAcc where
  status : String
  resolved_path : Option String
  resolved_source : Option String
  resolved_provider : Option String
  resolved_url : Option String
  resolved_record_id : Option String
  missing_reason : String
  entry_browser_assist_used : Bool
  entry_browser_assist_result : Option String
  attempted_providers : List String
  candidates_for_entry : List (String × String)
  browser_assist_candidate_count : Nat
  browser_assist_tried_count : Nat
  browser_assist_page_url : Option String
  canonical_key : Option String

def initAcc (ck : Option String) : EntryAcc :=
  { status := "missing"
    resolved_path := none
    resolved_source := none
    resolved_provider := none
    resolved_url := none
    resolved_record_id := none
    missing_reason := "not_found"
    entry_browser_assist_used := false
    entry_browser_assist_result := none
    attempted_providers := []
    candidates_for_entry := []
    browser_assist_candidate_count := 0
    browser_assist_tried_count := 0
    browser_assist_page_url := none
    canonical_key := ck }

def optTruthyS (s : String) : Option String := if s = "" then none else some s

/-- Key synthesis after a successful fetch for an entry without a
canonical key (lines 1031-1036 and 1129-1134). -/
def synthKey (canonical_key : Option String) (final_url : String)
    (entry_key : String) : Except Unit String :=
  match canonical_key with
  | some k => .ok k
  | none =>
    match normalize_urlS (some final_url) with
    | .error er => .error er
    | .ok (some nf) => .ok ("url:" ++ nf)
    | .ok none => .ok ("entry:" ++ entry_key)

/-- Cache-reuse phase (lines 912-950). -/
def cachePhase (env : Env) (cfg : RunConfig) (doi : Option String)
    (title entry_key : String) (st : LoopState) (acc : EntryAcc) :
    LoopState × EntryAcc :=
  let cached_record : Option PdfRecord :=
    match acc.canonical_key with
    | some ck => if cfg.reuse_cache.getD true then lookupRecord st.index ck else none
    | none => none
  match acc.canonical_key, cached_record with
  | some ck, some r =>
    if r.status = "found" ∧ (optTruthy r.pdf_path).isSome then
      match r.pdf_path with
      | some cp =>
        if env.fileExists cp then
          if is_cached_pdf_likely_for_doi (env.readFile2M cp) r.source_url doi then
            let mk := mark_record_found st.index ck (optTruthyS title) none none
              cp r.managed_file "cache" r.source_url r.provider r.content_type
              cfg.project_id cfg.step_id (some entry_key) env.now (env.fileSize cp)
            ({ st with index := mk.1, cache_hits := st.cache_hits + 1 },
             { acc with
                status := "found"
                resolved_path := some cp
                resolved_source := some "cache"
                resolved_provider := r.provider
                resolved_url := r.source_url
                resolved_record_id := orStr (some mk.2.id) (optTruthyS r.id) })
          else (st, acc)
        else (st, acc)
      | none => (st, acc)
    else (st, acc)
  | _, _ => (st, acc)

/-- Local-file phase (lines 952-976). -/
def localPhase (env : Env) (cfg : RunConfig) (i : Nat)
    (title entry_key : String) (st : LoopState) (acc : EntryAcc) :
    LoopState × EntryAcc :=
  if acc.status = "found" then (st, acc)
  else
    match env.localPaths i with
    | [] => (st, acc)
    | lp :: _ =>
      let acc1 := { acc with
        status := "found"
        resolved_path := some lp
        resolved_source := some "local_file"
        resolved_provider := some "local" }
      match acc1.canonical_key with
      | some ck =>
        let mk := mark_record_found st.index ck (optTruthyS title) none none
          lp false "local_file" none (some "local") (some "application/pdf")
          cfg.project_id cfg.step_id (some entry_key) env.now (env.fileSize lp)
        ({ st with index := mk.1, local_hits := st.local_hits + 1 },
         { acc1 with resolved_record_id := orStr (some mk.2.id) acc1.resolved_record_id })
      | none =>
        ({ st with local_hits := st.local_hits + 1 }, acc1)

/-- Direct-download phase (lines 978-1064); the loop itself is the
`env.direct` oracle, the bookkeeping after a successful fetch is modelled
here. -/
def directPhase (env : Env) (cfg : RunConfig) (i : Nat)
    (title entry_key : String) (st : LoopState) (acc : EntryAcc) :
    Except Unit (LoopState × EntryAcc) :=
  if acc.status ≠ "found" ∧ cfg.download_enabled.getD true then
    let d := env.direct i
    let acc1 := { acc with
      candidates_for_entry := d.candidates
      attempted_providers := d.providers }
    match d.hit with
    | none => .ok (st, acc1)
    | some h =>
      match synthKey acc1.canonical_key h.final_url entry_key with
      | .error er => .error er
      | .ok k =>
        let target := managed_pdf_path_for_key env.filesDir k
        let mk := mark_record_found st.index k (optTruthyS title) none none
          target true "download" (some h.final_url) (some h.provider)
          (some h.content_type) cfg.project_id cfg.step_id (some entry_key)
          env.now (env.fileSize target)
        .ok ({ st with index := mk.1, downloaded_count := st.downloaded_count + 1 },
          { acc1 with
            status := "found"
            canonical_key := some k
            resolved_path := some target
            resolved_source := some "download"
            resolved_provider := some h.provider
            resolved_url := some h.final_url
            resolved_record_id := orStr (some mk.2.id) acc1.resolved_record_id })
  else .ok (st, acc)

/-- Browser-assist phase (lines 1066-1168). -/
def browserPhase (env : Env) (cfg : RunConfig) (i : Nat)
    (doi : Option String) (entry_url : String)
    (title entry_key : String) (st : LoopState) (acc : EntryAcc) :
    Except Unit (LoopState × EntryAcc) :=
  if acc.status ≠ "found" ∧ cfg.download_enabled.getD true ∧
     st.browser_assist_enabled ∧ (doi.isSome ∨ entry_url ≠ "") then
    let st1 := { st with browser_attempted := st.browser_attempted + 1 }
    let acc1 := { acc with entry_browser_assist_used := true }
    let started : LoopState × EntryAcc :=
      match st1.session with
      | some _ => (st1, acc1)
      | none =>
        match env.browserStart i with
        | .ok s => ({ st1 with session := some s, browser_available := true }, acc1)
        | .error er =>
          ({ st1 with
              browser_errors := st1.browser_errors + 1
              browser_last_error := some er
              browser_assist_enabled := false },
           { acc1 with
              missing_reason := "browser_assist_unavailable"
              entry_browser_assist_result := some "unavailable" })
    let st2 := started.1
    let acc2 := started.2
    match st2.session with
    | none => .ok (st2, acc2)
    | some s =>
      if acc2.status ≠ "found" then
        match s.resolveAt i with
        | .resolved _body final ct prov stats =>
          let acc3 := { acc2 with
            browser_assist_candidate_count := stats.cands
            browser_assist_tried_count := stats.tried
            browser_assist_page_url := stats.page_url }
          match synthKey acc3.canonical_key final entry_key with
          | .error er => .error er
          | .ok k =>
            let target := managed_pdf_path_for_key env.filesDir k
            let mk := mark_record_found st2.index k (optTruthyS title) none none
              target true "browser_assist" (some final) (some prov) (some ct)
              cfg.project_id cfg.step_id (some entry_key) env.now
              (env.fileSize target)
            .ok ({ st2 with
                    index := mk.1
                    downloaded_count := st2.downloaded_count + 1
                    browser_resolved := st2.browser_resolved + 1 },
              { acc3 with
                status := "found"
                canonical_key := some k
                resolved_path := some target
                resolved_source := some "browser_assist"
                resolved_provider := some prov
                resolved_url := some final
                resolved_record_id := orStr (some mk.2.id) acc3.resolved_record_id
                entry_browser_assist_result := some "resolved" })
        | .timeout stats =>
          let acc3 := { acc2 with
            browser_assist_candidate_count := stats.cands
            browser_assist_tried_count := stats.tried
            browser_assist_page_url := stats.page_url }
          .ok (st2,
            { acc3 with
              missing_reason :=
                if acc3.missing_reason = "not_found" then "browser_assist_unresolved"
                else acc3.missing_reason
              entry_browser_assist_result :=
                match acc3.entry_browser_assist_result with
                | some r => some r
                | none => some "unresolved" })
        | .raised er stats =>
          let acc3 := { acc2 with
            browser_assist_candidate_count := stats.cands
            browser_assist_tried_count := stats.tried
            browser_assist_page_url := stats.page_url
            missing_reason := "browser_assist_error"
            entry_browser_assist_result := some "error" }
          .ok ({ st2 with
                  browser_errors := st2.browser_errors + 1
                  browser_last_error := some er }, acc3)
      else .ok (st2, acc2)
  else .ok (st, acc)

/-- Terminal missing bookkeeping (lines 1170-1182). -/
def finishPhase (env : Env) (cfg : RunConfig) (title entry_key : String)
    (st : LoopState) (acc : EntryAcc) : LoopState × EntryAcc :=
  if acc.status ≠ "found" then
    let mr := if acc.missing_reason = "not_found" then "pdf_not_resolved"
              else acc.missing_reason
    let acc1 := { acc with missing_reason := mr }
    match acc1.canonical_key with
    | some k =>
      let mk := mark_record_missing st.index k (optTruthyS title) none none mr
        cfg.project_id cfg.step_id (some entry_key) env.now
      ({ st with index := mk.1 }, acc1)
    | none => (st, acc1)
  else (st, acc)

def insertSorted (s : String) : List String → List String
  | [] => [s]
  | x :: t => if s ≤ x then s :: x :: t else x :: insertSorted s t

/-- Python `sorted(setOfStrings)`. -/
def sortedDedup (l : List String) : List String :=
  l.dedup.foldr insertSorted []

/-- The `details` dict of lines 1184-1213. -/
def mkDetails (doi : Option String) (acc : EntryAcc) : Details :=
  { pdf_status := acc.status
    pdf_path := acc.resolved_path
    source := acc.resolved_source
    provider := acc.resolved_provider
    source_url := acc.resolved_url
    pdf_record_id := acc.resolved_record_id
    doi := doi
    cache_key := acc.canonical_key
    browser_assist_used := acc.entry_browser_assist_used
    browser_assist_result := acc.entry_browser_assist_result
    missing_reason :=
      if acc.status = "found" then none else some acc.missing_reason
    missing_reason_label :=
      if acc.status = "found" then none
      else missing_reason_label (some acc.missing_reason)
    missing_reason_hint :=
      if acc.status = "found" then none
      else missing_reason_hint (some acc.missing_reason)
    attempted_providers := sortedDedup acc.attempted_providers
    candidate_count := acc.candidates_for_entry.length
    browser_assist_candidates :=
      if acc.entry_browser_assist_used then some acc.browser_assist_candidate_count
      else none
    browser_assist_tried :=
      if acc.entry_browser_assist_used then some acc.browser_assist_tried_count
      else none
    browser_assist_page_url :=
      if acc.entry_browser_assist_used then acc.browser_assist_page_url
      else none }

/-- One entry's contribution to the outputs (the appends of lines
1215-1250). -/
structure EntryOut where
  entry : Entry
  status : String
  details : Details
  change_all : Change
  change_pdf_only : Change
  deriving Repr, DecidableEq

def mkEntryOut (e : Entry) (entry_key : String) (acc : EntryAcc)
    (d : Details) : EntryOut :=
  if acc.status = "found" then
    { entry := e, status := acc.status, details := d
      change_all := ⟨entry_key, "keep", "pdf_available", d⟩
      change_pdf_only := ⟨entry_key, "keep", "pdf_available", d⟩ }
  else
    { entry := e, status := acc.status, details := d
      change_all := ⟨entry_key, "keep", "pdf_missing_passed", d⟩
      change_pdf_only := ⟨entry_key, "remove", "pdf_missing", d⟩ }

/-- One iteration of the entry loop (lines 882-1265). -/
def resolveEntry (env : Env) (cfg : RunConfig) (i : Nat) (e : Entry)
    (st : LoopState) : Except Unit (LoopState × EntryOut) :=
  let entry_key := (optTruthy e.ID).getD ("row_" ++ toString i)
  let title := guess_title e
  let doi := normalize_doiS (orStr e.doi e.DOI)
  let entry_url := pyStripS (e.url.getD "")
  match canonical_key_for_entry e with
  | .error er => .error er
  | .ok ck0 =>
    let ck := match doi with
              | some d => some ("doi:" ++ d)
              | none => ck0
    let p1 := cachePhase env cfg doi title entry_key st (initAcc ck)
    let p2 := localPhase env cfg i title entry_key p1.1 p1.2
    match directPhase env cfg i title entry_key p2.1 p2.2 with
    | .error er => .error er
    | .ok p3 =>
      match browserPhase env cfg i doi entry_url title entry_key p3.1 p3.2 with
      | .error er => .error er
      | .ok p4 =>
        let p5 := finishPhase env cfg title entry_key p4.1 p4.2
        let d := mkDetails doi p5.2
        .ok (p5.1, mkEntryOut e entry_key p5.2 d)

def runLoop (env : Env) (cfg : RunConfig) :
    Nat → LoopState → List Entry → Except Unit (LoopState × List EntryOut)
  | _, st, [] => .ok (st, [])
  | i, st, e :: t =>
    match resolveEntry env cfg i e st with
    | .error er => .error er
    | .ok (st1, o) =>
      match runLoop env cfg (i + 1) st1 t with
      | .error er => .error er
      | .ok (st2, os) => .ok (st2, o :: os)

/-- The `StepResult` of lines 1279-1313 (`outputs`, `changes` and the
`details` payload flattened into one structure; `saved_index` is the index
passed to `save_pdf_index`). -/
structure StepResultM where
  passed : List Entry
  pdf_found : List Entry
  pdf_missing : List Entry
  changes : List Change
  pass_mode : String
  mode_outputs_all : List Entry
  mode_outputs_pdf_only : List Entry
  mode_changes_all : List Change
  mode_changes_pdf_only : List Change
  stats_input_count : Nat
  stats_passed_count : Nat
  stats_removed_count : Nat
  cache_hits : Nat
  local_hits : Nat
  downloaded_count : Nat
  ba_enabled : Bool
  ba_available : Bool
  ba_attempted : Nat
  ba_resolved : Nat
  ba_errors : Nat
  ba_last_error : Option String
  saved_index : Index
  deriving Repr, DecidableEq

def initState (env : Env) (cfg : RunConfig) : LoopState :=
  { index := env.index0
    browser_assist_enabled := cfg.browser_assist_enabled.getD true
    session := none
    browser_available := false
    browser_attempted := 0
    browser_resolved := 0
    browser_errors := 0
    browser_last_error := none
    cache_hits := 0
    local_hits := 0
    downloaded_count := 0 }

/-- `PdfFetchHandler.run`.  An uncaught exception inside the loop (the
`ValueError` of url normalization) propagates as `Except.error`: the
browser session is closed by the `finally` block but no result is returned
and the index is not saved. -/
def run (env : Env) (cfg : RunConfig) (input_entries : List Entry) :
    Except Unit StepResultM :=
  let pass_mode := effPassMode cfg
  match runLoop env cfg 0 (initState env cfg) input_entries with
  | .error er => .error er
  | .ok (stF, outs) =>
    let pdf_found := (outs.filter (fun o => o.status = "found")).map (fun o => o.entry)
    let pdf_missing := (outs.filter (fun o => o.status ≠ "found")).map (fun o => o.entry)
    let changes_all := outs.map (fun o => o.change_all)
    let changes_pdf_only := outs.map (fun o => o.change_pdf_only)
    let passed := if pass_mode = "all" then input_entries else pdf_found
    let chosen := if pass_mode = "all" then changes_all else changes_pdf_only
    .ok
      { passed := passed
        pdf_found := pdf_found
        pdf_missing := pdf_missing
        changes := chosen
        pass_mode := pass_mode
        mode_outputs_all := input_entries
        mode_outputs_pdf_only := pdf_found
        mode_changes_all := changes_all
        mode_changes_pdf_only := changes_pdf_only
        stats_input_count := input_entries.length
        stats_passed_count := passed.length
        stats_removed_count := input_entries.length - passed.length
        cache_hits := stF.cache_hits
        local_hits := stF.local_hits
        downloaded_count := stF.downloaded_count
        ba_enabled := cfg.browser_assist_enabled.getD false
        ba_available := stF.browser_available
        ba_attempted := stF.browser_attempted
        ba_resolved := stF.browser_resolved
        ba_errors := stF.browser_errors
        ba_last_error := stF.browser_last_error
        saved_index := stF.index }

/-! ### Concrete environments, entries and configurations used by the
scenario and counterexample theorems -/

/-- An environment with an empty library, no local files and no network:
every oracle fails. -/
def nullEnv : Env :=
  { index0 := []
    filesDir := "/lib/files"
    now := "2026-01-01T00:00:00Z"
    fileExists := fun _ => false
    readFile2M := fun _ => none
    fileSize := fun _ => none
    localPaths := fun _ => []
    direct := fun _ => ⟨[], [], none⟩
    browserStart := fun _ => .error "playwright is not installed" }

/-- Like `nullEnv` but with a browser runtime that starts and resolves
every request. -/
def browserOkEnv : Env :=
  { nullEnv with
    browserStart := fun _ =>
      .ok ⟨fun _ => .resolved [37, 80, 68, 70, 45] "http://publisher/a.pdf"
        "application/pdf" "browser_page" ⟨3, 1, some "http://publisher"⟩⟩ }

/-- Like `nullEnv` but entry 0 has a local PDF on disk. -/
def localHitEnv : Env :=
  { nullEnv with localPaths := fun i => if i = 0 then ["/papers/found.pdf"] else [] }

def entryDoi : Entry :=
  ⟨some "e1", some "10.1145/123.456", none, none, none, some "Paper"⟩

def entryA : Entry := ⟨some "a", none, none, none, none, none⟩
def entryB : Entry := ⟨some "b", none, none, none, none, none⟩
def entryC : Entry := ⟨some "c", none, none, none, none, none⟩

/-- Download disabled, everything else defaulted (the C6 scenario
configuration). -/
def cfgNoDownload : RunConfig := ⟨none, none, some false, none, none, none, none⟩

/-- Download disabled but browser assist explicitly enabled. -/
def cfgBrowserOnly : RunConfig := ⟨none, none, some false, some true, none, none, none⟩

/-- `pass_mode` set to the non-canonical string `" pdf_only "`. -/
def cfgPaddedMode : RunConfig :=
  ⟨some " pdf_only ", none, some false, some false, none, none, none⟩

def cfgPdfOnlyMode : RunConfig :=
  ⟨some "pdf_only", none, some false, some false, none, none, none⟩

def cfgAllMode : RunConfig :=
  ⟨some "all", none, some false, some false, none, none, none⟩

/-- A found, managed library record used by concrete witnesses. -/
def sampleRecord : PdfRecord :=
  { id := "r1"
    key := "doi:10.1145/123.456"
    doi := some "10.1145/123.456"
    year := none
    database := none
    title := "Paper"
    status := "found"
    pdf_path := some "/lib/files/f.pdf"
    managed_file := true
    source := some "download"
    source_url := some "http://publisher/a.pdf"
    provider := some "doi_resolver"
    content_type := some "application/pdf"
    size_bytes := some 5
    project_ids := ["p1"]
    step_ids := ["s1"]
    entry_keys := ["e1"]
    missing_reason := none
    failure_count := 0
    created_at := "2026-01-01T00:00:00Z"
    updated_at := "2026-01-01T00:00:00Z"
    last_checked_at := "2026-01-01T00:00:00Z" }

/-! ## Lemmas -/

theorem lookupJ_setJ_self (o : List (String × JValue)) (k : String) (v : JValue) :
    lookupJ (setJ o k v) k = some v := by
  induction o with
  | nil => simp [setJ, lookupJ]
  | cons p t ih =>
    obtain ⟨k1, v1⟩ := p
    by_cases h : k1 = k
    · simp [setJ, lookupJ, h]
    · simp [setJ, lookupJ, h, ih]

theorem lookupJ_setJ_ne (o : List (String × JValue)) (k k' : String) (v : JValue)
    (h : k' ≠ k) : lookupJ (setJ o k v) k' = lookupJ o k' := by
  induction o with
  | nil => simp [setJ, lookupJ, Ne.symm h]
  | cons p t ih =>
    obtain ⟨k1, v1⟩ := p
    by_cases hp : k1 = k
    · subst hp
      simp [setJ, lookupJ, Ne.symm h, h]
    · by_cases hp' : k1 = k'
      · simp [setJ, lookupJ, hp, hp', h]
      · simp [setJ, lookupJ, hp, hp', ih]

theorem lookupRecord_setRecord_self (idx : Index) (k : String) (r : PdfRecord) :
    lookupRecord (setRecord idx k r) k = some r := by
  induction idx with
  | nil => simp [setRecord, lookupRecord]
  | cons p t ih =>
    obtain ⟨k1, r1⟩ := p
    by_cases h : k1 = k
    · simp [setRecord, lookupRecord, h]
    · simp [setRecord, lookupRecord, h, ih]

theorem subset_addRef (l : List String) (v : Option String) : l ⊆ addRef l v := by
  unfold addRef
  match optTruthy v with
  | none => exact fun a h => h
  | some s =>
    by_cases hs : s ∈ l
    · simp [hs]
    · simp only [hs, if_false]
      exact fun a h => List.mem_append_left _ h

theorem optTruthy_ne_empty {o : Option String} {s : String}
    (h : optTruthy o = some s) : s ≠ "" := by
  unfold optTruthy at h
  cases o with
  | none => cases h
  | some s' =>
    by_cases he : s' = ""
    · simp [he] at h
    · simp only [he, if_false] at h
      cases h
      exact he

/-- The get-or-create step keeps the failure count and the reference lists
of the stored (or fresh) record: the title fix touches only `title`. -/
theorem ensureRecord_preserves (idx : Index) (key : String)
    (t : Option String) (now : String) :
    (ensureRecord idx key t now).2.failure_count =
      (match lookupRecord idx key with
       | some r => r.failure_count
       | none => 0) ∧
    (ensureRecord idx key t now).2.project_ids =
      (match lookupRecord idx key with
       | some r => r.project_ids
       | none => []) ∧
    (ensureRecord idx key t now).2.step_ids =
      (match lookupRecord idx key with
       | some r => r.step_ids
       | none => []) ∧
    (ensureRecord idx key t now).2.entry_keys =
      (match lookupRecord idx key with
       | some r => r.entry_keys
       | none => []) := by
  unfold ensureRecord
  rcases h : lookupRecord idx key with _ | r <;>
    rcases ht : optTruthy t with _ | tt <;>
      simp [freshRecord] <;> split <;> simp

theorem lookup_mark_found (idx : Index) (key : String)
    (t y d : Option String) (p : String) (mf : Bool) (src : String)
    (su pv ct pj st ek : Option String) (now : String) (fs : Option Nat) :
    lookupRecord (mark_record_found idx key t y d p mf src su pv ct pj st ek now fs).1 key =
      some (mark_record_found idx key t y d p mf src su pv ct pj st ek now fs).2 :=
  lookupRecord_setRecord_self _ _ _

theorem lookup_mark_missing (idx : Index) (key : String)
    (t y d : Option String) (reason : String)
    (pj st ek : Option String) (now : String) :
    lookupRecord (mark_record_missing idx key t y d reason pj st ek now).1 key =
      some (mark_record_missing idx key t y d reason pj st ek now).2 :=
  lookupRecord_setRecord_self _ _ _

/-! ## Claim theorems -/

/-- Claim C8: `load_pdf_index` never fails: an absent, unreadable or
unparsable backing file and a non-object document all yield the empty
index `{"version": "1.0", "records": {}}`; a parsed object keeps its
fields, with a missing or non-object `records` replaced by `{}` and a
missing `version` defaulted to `"1.0"`. -/
theorem C8_load_pdf_index_defensive :
    load_pdf_index .absent = emptyIndexJson ∧
    load_pdf_index .unreadable = emptyIndexJson ∧
    load_pdf_index (.parsed .null) = emptyIndexJson ∧
    (∀ b, load_pdf_index (.parsed (.bool b)) = emptyIndexJson) ∧
    (∀ n, load_pdf_index (.parsed (.num n)) = emptyIndexJson) ∧
    (∀ s, load_pdf_index (.parsed (.str s)) = emptyIndexJson) ∧
    (∀ l, load_pdf_index (.parsed (.arr l)) = emptyIndexJson) ∧
    (∀ fields,
      lookupJ (load_pdf_index (.parsed (.obj fields))) "records" =
        some (.obj (match lookupJ fields "records" with
                    | some (.obj r) => r
                    | _ => [])) ∧
      lookupJ (load_pdf_index (.parsed (.obj fields))) "version" =
        (match lookupJ fields "version" with
         | some v => some v
         | none => some (.str "1.0"))) := by
  refine ⟨rfl, rfl, rfl, fun _ => rfl, fun _ => rfl, fun _ => rfl, fun _ => rfl, ?_⟩
  intro fields
  have hdef : load_pdf_index (.parsed (.obj fields)) =
      (let f1 := match lookupJ fields "records" with
                 | some (.obj r) => (fun (_ : List (String × JValue)) => fields) r
                 | _ => setJ fields "records" (.obj [])
       if (lookupJ f1 "version").isSome then f1
       else setJ f1 "version" (.str "1.0")) := rfl
  have hv2 : lookupJ (setJ fields "records" (JValue.obj [])) "version" =
      lookupJ fields "version" :=
    lookupJ_setJ_ne fields "records" "version" (JValue.obj []) (by decide)
  have hrv : ∀ w, lookupJ (setJ (setJ fields "records" (JValue.obj []))
      "version" w) "records" = some (JValue.obj []) := fun w => by
    rw [lookupJ_setJ_ne _ _ _ _ (by decide), lookupJ_setJ_self]
  have hrv2 : ∀ w, lookupJ (setJ fields "version" w) "records" =
      lookupJ fields "records" := fun w =>
    lookupJ_setJ_ne fields "version" "records" w (by decide)
  rcases hrec : lookupJ fields "records" with _ | v
  · rw [hdef]
    simp only [hrec, hv2]
    rcases hver : lookupJ fields "version" with _ | w
    · simp only [Option.isSome_none, Bool.false_eq_true, if_false]
      exact ⟨hrv _, lookupJ_setJ_self _ _ _⟩
    · simp only [Option.isSome_some, if_true]
      exact ⟨lookupJ_setJ_self _ _ _, by rw [hv2, hver]⟩
  · rcases v with _ | b | n | s | l | r
    case obj =>
      rw [hdef]
      simp only [hrec]
      rcases hver : lookupJ fields "version" with _ | w
      · simp only [hver, Option.isSome_none, Bool.false_eq_true, if_false]
        exact ⟨by rw [hrv2, hrec], lookupJ_setJ_self _ _ _⟩
      · simp only [hver, Option.isSome_some, if_true]
        exact ⟨by rw [hrec], trivial⟩
    all_goals (
      rw [hdef]
      simp only [hrec, hv2]
      rcases hver : lookupJ fields "version" with _ | w
      · simp only [Option.isSome_none, Bool.false_eq_true, if_false]
        exact ⟨hrv _, lookupJ_setJ_self _ _ _⟩
      · simp only [Option.isSome_some, if_true]
        exact ⟨lookupJ_setJ_self _ _ _, by rw [hv2, hver]⟩)

end PdfFetch

namespace PdfFetch

/-- Claim C3: `mark_record_found` followed by `mark_record_missing` on the
same key leaves the record with status `"missing"`; the reference lists
(`project_ids`, `step_ids`, `entry_keys`) never shrink across the second
call; and `mark_record_missing` increments `failure_count` by exactly one
while `mark_record_found` leaves it at the stored record's value (0 for a
fresh key) — a success never resets it. -/
theorem C3_mark_found_then_missing (idx : Index) (key : String)
    (t1 y1 d1 : Option String) (path : String) (mf : Bool) (src : String)
    (su pv ct pj1 s1 ek1 : Option String) (now1 : String) (fs : Option Nat)
    (t2 y2 d2 : Option String) (reason : String)
    (pj2 s2 ek2 : Option String) (now2 : String) :
    (mark_record_missing
        (mark_record_found idx key t1 y1 d1 path mf src su pv ct pj1 s1 ek1 now1 fs).1
        key t2 y2 d2 reason pj2 s2 ek2 now2).2.status = "missing" ∧
    (mark_record_found idx key t1 y1 d1 path mf src su pv ct pj1 s1 ek1 now1 fs).2.project_ids ⊆
      (mark_record_missing
        (mark_record_found idx key t1 y1 d1 path mf src su pv ct pj1 s1 ek1 now1 fs).1
        key t2 y2 d2 reason pj2 s2 ek2 now2).2.project_ids ∧
    (mark_record_found idx key t1 y1 d1 path mf src su pv ct pj1 s1 ek1 now1 fs).2.step_ids ⊆
      (mark_record_missing
        (mark_record_found idx key t1 y1 d1 path mf src su pv ct pj1 s1 ek1 now1 fs).1
        key t2 y2 d2 reason pj2 s2 ek2 now2).2.step_ids ∧
    (mark_record_found idx key t1 y1 d1 path mf src su pv ct pj1 s1 ek1 now1 fs).2.entry_keys ⊆
      (mark_record_missing
        (mark_record_found idx key t1 y1 d1 path mf src su pv ct pj1 s1 ek1 now1 fs).1
        key t2 y2 d2 reason pj2 s2 ek2 now2).2.entry_keys ∧
    (mark_record_missing
        (mark_record_found idx key t1 y1 d1 path mf src su pv ct pj1 s1 ek1 now1 fs).1
        key t2 y2 d2 reason pj2 s2 ek2 now2).2.failure_count =
      (mark_record_found idx key t1 y1 d1 path mf src su pv ct pj1 s1 ek1 now1 fs).2.failure_count + 1 ∧
    (mark_record_found idx key t1 y1 d1 path mf src su pv ct pj1 s1 ek1 now1 fs).2.failure_count =
      (match lookupRecord idx key with
       | some r => r.failure_count
       | none => 0) ∧
    lookupRecord
        (mark_record_missing
          (mark_record_found idx key t1 y1 d1 path mf src su pv ct pj1 s1 ek1 now1 fs).1
          key t2 y2 d2 reason pj2 s2 ek2 now2).1 key =
      some (mark_record_missing
          (mark_record_found idx key t1 y1 d1 path mf src su pv ct pj1 s1 ek1 now1 fs).1
          key t2 y2 d2 reason pj2 s2 ek2 now2).2 := by
  have hl : lookupRecord
      (mark_record_found idx key t1 y1 d1 path mf src su pv ct pj1 s1 ek1 now1 fs).1 key =
      some (mark_record_found idx key t1 y1 d1 path mf src su pv ct pj1 s1 ek1 now1 fs).2 :=
    lookup_mark_found idx key t1 y1 d1 path mf src su pv ct pj1 s1 ek1 now1 fs
  have hp := ensureRecord_preserves
    (mark_record_found idx key t1 y1 d1 path mf src su pv ct pj1 s1 ek1 now1 fs).1 key t2 now2
  rw [hl] at hp
  have hp0 := ensureRecord_preserves idx key t1 now1
  refine ⟨rfl, ?_, ?_, ?_, ?_, ?_, lookup_mark_missing _ _ _ _ _ _ _ _ _ _⟩
  · show (mark_record_found idx key t1 y1 d1 path mf src su pv ct pj1 s1 ek1 now1 fs).2.project_ids ⊆
      addRef (ensureRecord
        (mark_record_found idx key t1 y1 d1 path mf src su pv ct pj1 s1 ek1 now1 fs).1
        key t2 now2).2.project_ids pj2
    rw [hp.2.1]
    exact subset_addRef _ _
  · show (mark_record_found idx key t1 y1 d1 path mf src su pv ct pj1 s1 ek1 now1 fs).2.step_ids ⊆
      addRef (ensureRecord
        (mark_record_found idx key t1 y1 d1 path mf src su pv ct pj1 s1 ek1 now1 fs).1
        key t2 now2).2.step_ids s2
    rw [hp.2.2.1]
    exact subset_addRef _ _
  · show (mark_record_found idx key t1 y1 d1 path mf src su pv ct pj1 s1 ek1 now1 fs).2.entry_keys ⊆
      addRef (ensureRecord
        (mark_record_found idx key t1 y1 d1 path mf src su pv ct pj1 s1 ek1 now1 fs).1
        key t2 now2).2.entry_keys ek2
    rw [hp.2.2.2]
    exact subset_addRef _ _
  · show (ensureRecord
        (mark_record_found idx key t1 y1 d1 path mf src su pv ct pj1 s1 ek1 now1 fs).1
        key t2 now2).2.failure_count + 1 =
      (mark_record_found idx key t1 y1 d1 path mf src su pv ct pj1 s1 ek1 now1 fs).2.failure_count + 1
    rw [hp.1]
  · show (ensureRecord idx key t1 now1).2.failure_count =
      (match lookupRecord idx key with
       | some r => r.failure_count
       | none => 0)
    exact hp0.1

end PdfFetch

namespace PdfFetch

theorem get_record_by_id_none_iff (idx : Index) (rid : String) :
    get_record_by_id idx rid = none ↔ ∀ p ∈ idx, p.2.id ≠ rid := by
  induction idx with
  | nil => simp [get_record_by_id]
  | cons p t ih =>
    obtain ⟨k, r⟩ := p
    by_cases h : r.id = rid
    · simp [get_record_by_id, h]
    · simp [get_record_by_id, h, ih]

/-- Claim C9: `delete_record` raises a not-found error exactly when no
record in the index carries the given id; on a hit, the record's key is
removed from the index, and the on-disk file is unlinked only when
`delete_file` is set and the record is a managed file (an unmanaged record
leaves its file untouched), with `removed_file`/`removed_path` reporting
whether and which file was removed. -/
theorem C9_delete_record (idx : Index) (fe : String → Bool) (rid : String)
    (df : Bool) :
    ((delete_record idx fe rid df = .error rid) ↔ ∀ p ∈ idx, p.2.id ≠ rid) ∧
    (∀ key record, get_record_by_id idx rid = some (key, record) →
      ∀ out, delete_record idx fe rid df = .ok out →
        out.index = removeKey idx key ∧
        out.record_id = rid ∧
        (out.removed_file = true → df = true ∧ record.managed_file = true) ∧
        (record.managed_file = false →
          out.removed_file = false ∧ out.removed_path = none) ∧
        (out.removed_file = true ↔
          df = true ∧ record.managed_file = true ∧
          ∃ p, optTruthy record.pdf_path = some p ∧ fe p = true) ∧
        out.removed_path =
          (if out.removed_file then optTruthy record.pdf_path else none)) ∧
    (get_record_by_id idx rid ≠ none → ∃ out, delete_record idx fe rid df = .ok out) := by
  refine ⟨?_, ?_, ?_⟩
  · rw [← get_record_by_id_none_iff]
    unfold delete_record
    rcases h : get_record_by_id idx rid with _ | kr
    · simp
    · obtain ⟨key, record⟩ := kr
      simp
  · intro key record hget out hout
    unfold delete_record at hout
    rw [hget] at hout
    simp only [Except.ok.injEq] at hout
    subst hout
    refine ⟨rfl, rfl, ?_, ?_, ?_, rfl⟩
    · intro hrm
      simp only [Bool.and_eq_true] at hrm
      exact ⟨hrm.1.1.1, hrm.1.2⟩
    · intro hmf
      constructor
      · simp [hmf]
      · simp [hmf]
    · constructor
      · intro hrm
        simp only [Bool.and_eq_true] at hrm
        refine ⟨hrm.1.1.1, hrm.1.2, ?_⟩
        rcases hp : optTruthy record.pdf_path with _ | p
        · rw [hp] at hrm
          simp at hrm
        · rw [hp] at hrm
          exact ⟨p, rfl, hrm.2⟩
      · rintro ⟨hdf, hmf, p, hp, hfe⟩
        simp [hdf, hmf, hp, hfe]
  · intro hne
    unfold delete_record
    rcases h : get_record_by_id idx rid with _ | kr
    · exact absurd h hne
    · obtain ⟨key, record⟩ := kr
      exact ⟨_, rfl⟩

/-- Claim C9 witness: on an empty index the delete raises, and on a
concrete index holding a found managed record the delete removes the index
entry and reports the file unlink. -/
theorem C9_delete_record_witness :
    delete_record [] (fun _ => true) "r1" true = .error "r1" ∧
    (delete_record [("doi:10.1145/123.456", sampleRecord)] (fun _ => true) "r1" true
        = .ok ⟨[], "r1", true, some "/lib/files/f.pdf"⟩) ∧
    ([] : Index) = removeKey [("doi:10.1145/123.456", sampleRecord)] "doi:10.1145/123.456" ∧
    (true = true ↔
      true = true ∧ sampleRecord.managed_file = true ∧
      ∃ p, optTruthy sampleRecord.pdf_path = some p ∧ (fun (_ : String) => true) p = true) := by
  have h1 := (C9_delete_record [] (fun _ => true) "r1" true).1.mpr (by simp)
  have h2 := (C9_delete_record [("doi:10.1145/123.456", sampleRecord)]
      (fun _ => true) "r1" true).2.1 "doi:10.1145/123.456" sampleRecord
      (by decide) ⟨[], "r1", true, some "/lib/files/f.pdf"⟩ (by rfl)
  exact ⟨h1, by rfl, h2.1, h2.2.2.2.2.1⟩

end PdfFetch


namespace PdfFetch

/-- An HTTP 200 PDF-typed response whose body streams to zero bytes. -/
def respEmptyBody : HttpResp :=
  ⟨200, none, some "application/pdf", [], "http://host/a.pdf"⟩

/-- An HTTP 200 PDF response with a six-byte `%PDF-` body. -/
def respOkPdf : HttpResp :=
  ⟨200, some "6", some "application/pdf", [[37, 80, 68, 70, 45, 49]],
   "http://host/a.pdf"⟩

/-- Claim C7 counterexample: an HTTP 200 response with a PDF content type,
no declared length, and an empty body falsifies the claim as stated — none
of the claimed abort conditions holds (status is 200, no Content-Length is
declared, zero bytes were read which cannot exceed the cap, and the
Content-Type contains "pdf"), yet `fetch_pdf_bytes` returns nothing
instead of the body. -/
theorem C7_counterexample :
    fetch_pdf_bytes (some respEmptyBody) 50 = none ∧
    respEmptyBody.status = 200 ∧
    respEmptyBody.content_length = none ∧
    readChunksCapped (50 * 1024 * 1024) respEmptyBody.chunks 0 = some [] ∧
    containsSub ['p', 'd', 'f']
      (lowerPy (respEmptyBody.content_type.getD "").data) = true := by
  refine ⟨rfl, rfl, rfl, rfl, by decide⟩

/-- Claim C7 (amended): `fetch_pdf_bytes` returns nothing exactly when the
request raised, the status is not 200, the declared numeric Content-Length
exceeds the `max_pdf_mb` cap, the streaming loop aborted (equivalently, by
the second conjunct, the total bytes exceed the cap), the accumulated body
is empty, or neither the Content-Type contains "pdf" nor the body starts
with `%PDF-`; otherwise it returns the body with the final URL and the
lowered content type. -/
theorem C7_fetch_pdf_bytes_amended (resp : HttpResp) (mb : Nat) :
    fetch_pdf_bytes none mb = none ∧
    (readChunksCapped (mb * 1024 * 1024) resp.chunks 0 = none ↔
      mb * 1024 * 1024 < (resp.chunks.map List.length).sum) ∧
    (fetch_pdf_bytes (some resp) mb = none ↔
      resp.status ≠ 200 ∨
      (match resp.content_length with
       | some cl => cl ≠ "" ∧ cl.data.all isAsciiDigit = true ∧
           mb * 1024 * 1024 < digitsToNat cl.data
       | none => False) ∨
      (match readChunksCapped (mb * 1024 * 1024) resp.chunks 0 with
       | none => True
       | some body => body = [] ∨
           (containsSub ['p', 'd', 'f']
              (lowerPy (resp.content_type.getD "").data) = false ∧
            startsWithB pdfMagic body = false))) ∧
    (∀ body, readChunksCapped (mb * 1024 * 1024) resp.chunks 0 = some body →
      resp.status = 200 →
      (∀ cl, resp.content_length = some cl → cl ≠ "" →
        cl.data.all isAsciiDigit = true → digitsToNat cl.data ≤ mb * 1024 * 1024) →
      body ≠ [] →
      (containsSub ['p', 'd', 'f'] (lowerPy (resp.content_type.getD "").data) = true ∨
        startsWithB pdfMagic body = true) →
      fetch_pdf_bytes (some resp) mb =
        some (body, resp.final_url, String.mk (lowerPy (resp.content_type.getD "").data))) := by
  obtain ⟨st, clen, ctype, chunks, furl⟩ := resp
  simp only []
  have hchunks : ∀ (l : List (List Nat)) (s : Nat), s ≤ mb * 1024 * 1024 →
      (readChunksCapped (mb * 1024 * 1024) l s = none ↔
        mb * 1024 * 1024 < s + (l.map List.length).sum) := by
    intro l
    induction l with
    | nil => intro s hs; simpa [readChunksCapped] using Nat.not_lt.mpr hs
    | cons ch t ih =>
      intro s hs
      by_cases hche : ch.isEmpty
      · have hchnil : ch = [] := by simpa using hche
        subst hchnil
        simpa [readChunksCapped] using ih s hs
      · by_cases hover : mb * 1024 * 1024 < s + ch.length
        · simp only [readChunksCapped, hche, Bool.false_eq_true, if_false, hover,
            if_true, List.map_cons, List.sum_cons]
          constructor
          · intro _
            omega
          · intro _
            trivial
        · have hle : s + ch.length ≤ mb * 1024 * 1024 := Nat.not_lt.mp hover
          simp only [readChunksCapped, hche, Bool.false_eq_true, if_false, hover,
            if_false, List.map_cons, List.sum_cons]
          rw [Option.map_eq_none']
          rw [ih (s + ch.length) hle]
          omega
  have hiff := hchunks chunks 0 (Nat.zero_le _)
  rw [Nat.zero_add] at hiff
  have hclB : ∀ cl : String,
      ((!cl.isEmpty) && cl.data.all isAsciiDigit &&
        decide (mb * 1024 * 1024 < digitsToNat cl.data)) = true ↔
      (cl ≠ "" ∧ cl.data.all isAsciiDigit = true ∧
        mb * 1024 * 1024 < digitsToNat cl.data) := by
    intro cl
    simp only [Bool.and_eq_true, Bool.not_eq_true', decide_eq_true_eq]
    constructor
    · rintro ⟨⟨h1, h2⟩, h3⟩
      refine ⟨?_, h2, h3⟩
      intro he
      rw [he] at h1
      exact absurd h1 (by decide)
    · rintro ⟨h1, h2, h3⟩
      refine ⟨⟨?_, h2⟩, h3⟩
      cases hemp : cl.isEmpty
      · rfl
      · exact absurd ((String.isEmpty_iff cl).mp hemp) h1
  have htypeB : ∀ body : List Nat,
      ((!containsSub ['p', 'd', 'f'] (lowerPy (Option.getD ctype "").data)) &&
        (!startsWithB pdfMagic body)) = true ↔
      (containsSub ['p', 'd', 'f'] (lowerPy (Option.getD ctype "").data) = false ∧
        startsWithB pdfMagic body = false) := by
    intro body
    simp only [Bool.and_eq_true, Bool.not_eq_true']
  refine ⟨rfl, hiff, ?_, ?_⟩
  · unfold fetch_pdf_bytes
    by_cases hst : st = 200
    · subst hst
      simp only [ne_eq, not_true_eq_false, if_false, false_or]
      have hgoal : ∀ (clcond : Bool) (clprop : Prop), (clcond = true ↔ clprop) →
          ((if clcond then none
            else match readChunksCapped (mb * 1024 * 1024) chunks 0 with
              | none => none
              | some body =>
                if body.isEmpty then none
                else
                  if (!containsSub ['p', 'd', 'f']
                        (lowerPy (Option.getD ctype "").data)) &&
                      (!startsWithB pdfMagic body) then none
                  else some (body, furl,
                    String.mk (lowerPy (Option.getD ctype "").data))) = none ↔
            clprop ∨
            (match readChunksCapped (mb * 1024 * 1024) chunks 0 with
             | none => True
             | some body => body = [] ∨
                 (containsSub ['p', 'd', 'f']
                    (lowerPy (Option.getD ctype "").data) = false ∧
                  startsWithB pdfMagic body = false))) := by
        intro clcond clprop hcp
        cases clcond with
        | true =>
          simp only [if_true, true_iff]
          exact Or.inl (hcp.mp rfl)
        | false =>
          have hncl : ¬ clprop := fun h => by
            have := hcp.mpr h
            cases this
          simp only [Bool.false_eq_true, if_false, hncl, false_or]
          rcases hrd : readChunksCapped (mb * 1024 * 1024) chunks 0 with _ | body
          · simp
          · simp only []
            by_cases hbe : body.isEmpty
            · have hbnil : body = [] := by simpa using hbe
              subst hbnil
              simp
            · have hbne : ¬ (body = []) := by simpa using hbe
              have hbe' := eq_false_of_ne_true hbe
              simp only [hbe', Bool.false_eq_true, if_false, hbne, false_or]
              by_cases htype : ((!containsSub ['p', 'd', 'f']
                  (lowerPy (Option.getD ctype "").data)) &&
                  (!startsWithB pdfMagic body)) = true
              · simp only [htype, if_true, true_iff]
                exact (htypeB body).mp htype
              · have htype2 := eq_false_of_ne_true htype
                simp only [htype2, Bool.false_eq_true, if_false]
                constructor
                · intro h
                  cases h
                · intro h
                  exact absurd ((htypeB body).mpr h) htype
      cases clen with
      | none => exact hgoal false False (by simp)
      | some cl => exact hgoal _ _ (hclB cl)
    · simp [fetch_pdf_bytes, hst]
  · intro body hrd hst hcl hbne htype
    subst hst
    unfold fetch_pdf_bytes
    have hbe : body.isEmpty = false := by
      cases body with
      | nil => exact absurd rfl hbne
      | cons a t => rfl
    have htypeF : ((!containsSub ['p', 'd', 'f']
        (lowerPy (Option.getD ctype "").data)) &&
        (!startsWithB pdfMagic body)) = false := by
      rcases htype with h | h
      · simp [h]
      · simp [h]
    cases clen with
    | none =>
      simp only [ne_eq, not_true_eq_false, if_false, Bool.false_eq_true,
        hrd, hbe, htypeF, if_false]
    | some cl =>
      have hbad : ((!cl.isEmpty) && cl.data.all isAsciiDigit &&
          decide (mb * 1024 * 1024 < digitsToNat cl.data)) = false := by
        by_cases hb : ((!cl.isEmpty) && cl.data.all isAsciiDigit &&
            decide (mb * 1024 * 1024 < digitsToNat cl.data)) = true
        · obtain ⟨h1, h2, h3⟩ := (hclB cl).mp hb
          exact absurd h3 (Nat.not_lt.mpr (hcl cl rfl h1 h2))
        · exact eq_false_of_ne_true hb
      simp only [ne_eq, not_true_eq_false, if_false, hbad, Bool.false_eq_true,
        hrd, hbe, htypeF, if_false]

/-- Claim C7 witness: the amended characterization applied to a concrete
successful response. -/
theorem C7_fetch_pdf_bytes_witness :
    fetch_pdf_bytes (some respOkPdf) 50 =
      some ([37, 80, 68, 70, 45, 49], "http://host/a.pdf", "application/pdf") := by
  have h := (C7_fetch_pdf_bytes_amended respOkPdf 50).2.2.2
    [37, 80, 68, 70, 45, 49] (by rfl) rfl
    (by intro cl hcl h1 h2; cases hcl; decide)
    (by decide) (Or.inl (by decide))
  simpa [respOkPdf] using h

end PdfFetch

namespace PdfFetch

/-- Claim C2: `is_pdf_likely_for_doi` accepts unconditionally when the DOI
is absent (`None` or empty) or does not normalize to a valid DOI; for a
DOI normalizing to `nd`, it accepts any body whose first 2,000,000 bytes
(latin-1 decoded and lowered) contain `nd` — in particular a body
containing the DOI string literally — and rejects an unrelated body, one
containing neither `nd` nor, when the DOI suffix has length at least 6,
that suffix, provided the (unquoted, lowered) final URL also contains
neither. -/
theorem C2_is_pdf_likely_for_doi (body : List Nat) (url : String) :
    (∀ doi, optTruthy doi = none → is_pdf_likely_for_doi body url doi = true) ∧
    (∀ d, normalize_doi (some (String.data d)) = none →
      is_pdf_likely_for_doi body url (some d) = true) ∧
    (∀ d nd, normalize_doi (some (String.data d)) = some nd →
      containsSub nd (lowerPy ((body.take 2000000).map Char.ofNat)) = true →
      is_pdf_likely_for_doi body url (some d) = true) ∧
    (∀ d nd, normalize_doi (some (String.data d)) = some nd →
      containsSub nd (lowerPy (unquotePy url.data)) = false →
      containsSub nd (lowerPy ((body.take 2000000).map Char.ofNat)) = false →
      (∀ short, splitFirst '/' nd = some short →
        6 ≤ short.2.length →
        containsSub short.2 (lowerPy (unquotePy url.data)) = false ∧
        containsSub short.2 (lowerPy ((body.take 2000000).map Char.ofNat)) = false) →
      is_pdf_likely_for_doi body url (some d) = false) := by
  have hne : ∀ d : String, normalize_doi (some (String.data d)) ≠ none → d ≠ "" := by
    intro d h he
    subst he
    exact h rfl
  refine ⟨?_, ?_, ?_, ?_⟩
  · intro doi h
    unfold is_pdf_likely_for_doi
    rw [h]
  · intro d h
    unfold is_pdf_likely_for_doi
    by_cases he : d = ""
    · subst he
      rfl
    · simp only [optTruthy, he, if_false]
      rw [h]
  · intro d nd h hbody
    have he : d ≠ "" := hne d (by rw [h]; exact Option.noConfusion)
    unfold is_pdf_likely_for_doi
    simp only [optTruthy, he, if_false]
    rw [h]
    simp only []
    by_cases h1 : containsSub nd (lowerPy (unquotePy url.data)) = true
    · simp [h1]
    · have h1' := eq_false_of_ne_true h1
      simp only [h1', Bool.false_eq_true, if_false]
      by_cases h2 : ((!(match splitFirst '/' nd with
          | some p => p.2
          | none => nd).isEmpty) &&
          decide (6 ≤ (match splitFirst '/' nd with
          | some p => p.2
          | none => nd).length) &&
          containsSub (match splitFirst '/' nd with
          | some p => p.2
          | none => nd) (lowerPy (unquotePy url.data))) = true
      · simp [h2]
      · have h2' := eq_false_of_ne_true h2
        simp only [h2', Bool.false_eq_true, if_false, hbody, if_true]
  · intro d nd h hurl hbody hshort
    have he : d ≠ "" := hne d (by rw [h]; exact Option.noConfusion)
    unfold is_pdf_likely_for_doi
    simp only [optTruthy, he, if_false]
    rw [h]
    simp only [hurl, Bool.false_eq_true, if_false, hbody]
    have hsh : ∀ sh : List Char,
        (match splitFirst '/' nd with
         | some p => p.2
         | none => nd) = sh →
        (∀ hyp : 6 ≤ sh.length → containsSub sh (lowerPy (unquotePy url.data)) = false ∧
          containsSub sh (lowerPy ((body.take 2000000).map Char.ofNat)) = false,
        ((!sh.isEmpty) && decide (6 ≤ sh.length) &&
          containsSub sh (lowerPy (unquotePy url.data))) = false ∧
        ((!sh.isEmpty) && decide (6 ≤ sh.length) &&
          containsSub sh (lowerPy ((body.take 2000000).map Char.ofNat))) = false) := by
      intro sh _ hyp
      by_cases hlen : 6 ≤ sh.length
      · obtain ⟨hu, hb⟩ := hyp hlen
        constructor
        · simp only [hu, Bool.and_false]
        · simp only [hb, Bool.and_false]
      · have hd : decide (6 ≤ sh.length) = false := by
          simpa using hlen
        constructor
        · simp only [hd, Bool.and_false, Bool.false_and]
        · simp only [hd, Bool.and_false, Bool.false_and]
    rcases hsp : splitFirst '/' nd with _ | p
    · have hres := hsh nd (by rw [hsp]) (fun hlen => by
        refine ⟨?_, ?_⟩
        · exact hurl
        · exact hbody)
      simp only [hsp] at hres ⊢
      simp only [hres.1, Bool.false_eq_true, if_false, hres.2]
    · have hres := hsh p.2 (by rw [hsp]) (fun hlen => hshort p hsp hlen)
      simp only [hsp] at hres ⊢
      simp only [hres.1, Bool.false_eq_true, if_false, hres.2]

/-- Claim C2 witness: a concrete DOI, a body containing it (accepted), and
an unrelated body and URL (rejected). -/
theorem C2_is_pdf_likely_for_doi_witness :
    is_pdf_likely_for_doi (utf8Encode "see doi 10.1234/xyzw99 here".data)
      "http://host/paper" (some "10.1234/xyzw99") = true ∧
    is_pdf_likely_for_doi (utf8Encode "completely unrelated text".data)
      "http://host/paper" (some "10.1234/xyzw99") = false ∧
    is_pdf_likely_for_doi [] "http://host/paper" none = true := by
  refine ⟨?_, ?_, ?_⟩
  · exact (C2_is_pdf_likely_for_doi (utf8Encode "see doi 10.1234/xyzw99 here".data)
      "http://host/paper").2.2.1 "10.1234/xyzw99" "10.1234/xyzw99".data
      (by decide) (by decide)
  · exact (C2_is_pdf_likely_for_doi (utf8Encode "completely unrelated text".data)
      "http://host/paper").2.2.2 "10.1234/xyzw99" "10.1234/xyzw99".data
      (by decide) (by decide) (by decide)
      (by intro short hsp hlen
          refine ⟨?_, ?_⟩ <;>
            (first
              | (have : short = ("10.1234".data, "xyzw99".data) := by
                   have := hsp
                   simp [splitFirst] at this
                   exact this.symm
                 subst this
                 decide)))
  · exact (C2_is_pdf_likely_for_doi [] "http://host/paper").1 none rfl

end PdfFetch

namespace PdfFetch

theorem resolveEntry_pass_mode_eq (env : Env) (cfg : RunConfig) (pm : Option String)
    (n : Nat) (e : Entry) (st : LoopState) :
    resolveEntry env { cfg with pass_mode := pm } n e st = resolveEntry env cfg n e st := rfl

theorem initState_pass_mode_eq (env : Env) (cfg : RunConfig) (pm : Option String) :
    initState env { cfg with pass_mode := pm } = initState env cfg := rfl

/-- The entry loop never reads `pass_mode`: only the final output selection
does. -/
theorem runLoop_pass_mode_eq (env : Env) (cfg : RunConfig) (pm : Option String)
    (n : Nat) (st : LoopState) (es : List Entry) :
    runLoop env { cfg with pass_mode := pm } n st es = runLoop env cfg n st es := by
  induction es generalizing n st with
  | nil => rfl
  | cons e t ih =>
    unfold runLoop
    rw [resolveEntry_pass_mode_eq]
    rcases resolveEntry env cfg n e st with er | p
    · rfl
    · obtain ⟨st1, o⟩ := p
      dsimp only []
      rw [ih]

/-- Claim C10 counterexample: a `pass_mode` of `" pdf_only "` is a string
other than `"all"` and `"pdf_only"`, yet `run` does not behave as `"all"`:
`strip()` canonicalizes it to `"pdf_only"`, so an unresolved entry is
dropped from `passed` instead of passing through. -/
theorem C10_counterexample :
    cfgPaddedMode.pass_mode = some " pdf_only " ∧
    " pdf_only " ≠ "all" ∧ " pdf_only " ≠ "pdf_only" ∧
    (run nullEnv cfgPaddedMode [entryDoi]).map (fun r => r.passed) = .ok [] ∧
    (run nullEnv cfgPaddedMode [entryDoi]).map (fun r => r.mode_outputs_all) =
      .ok [entryDoi] ∧
    ([] : List Entry) ≠ [entryDoi] := by
  exact ⟨rfl, by decide, by decide, by rfl, by rfl, by decide⟩

/-- Claim C10 (amended): a config whose `pass_mode` does not *strip* to
`"all"` or `"pdf_only"` behaves exactly as `pass_mode = "all"` — the whole
`run` result is the same. -/
theorem C10_invalid_pass_mode_is_all (env : Env) (cfg : RunConfig)
    (entries : List Entry)
    (h1 : pyStripS (cfg.pass_mode.getD "all") ≠ "all")
    (h2 : pyStripS (cfg.pass_mode.getD "all") ≠ "pdf_only") :
    run env cfg entries = run env { cfg with pass_mode := some "all" } entries := by
  have he : effPassMode cfg = "all" := by
    unfold effPassMode
    rw [if_neg]
    rintro (h | h)
    · exact h1 h
    · exact h2 h
  have he2 : effPassMode { cfg with pass_mode := some "all" } = "all" := rfl
  unfold run
  rw [he, he2]
  conv_rhs => rw [runLoop_pass_mode_eq, initState_pass_mode_eq]

/-- Claim C10 witness: the amended fallback applied at a concrete bogus
mode string. -/
theorem C10_invalid_pass_mode_witness :
    run nullEnv ⟨some "bogus", none, some false, some false, none, none, none⟩ [entryDoi] =
      run nullEnv ⟨some "all", none, some false, some false, none, none, none⟩ [entryDoi] := by
  have h := C10_invalid_pass_mode_is_all nullEnv
    ⟨some "bogus", none, some false, some false, none, none, none⟩ [entryDoi]
    (by decide) (by decide)
  exact h

end PdfFetch

namespace PdfFetch

theorem mkEntryOut_status (e : Entry) (ek : String) (acc : EntryAcc) (d : Details) :
    (mkEntryOut e ek acc d).status = acc.status := by
  unfold mkEntryOut
  split <;> rfl

theorem mkEntryOut_details (e : Entry) (ek : String) (acc : EntryAcc) (d : Details) :
    (mkEntryOut e ek acc d).details = d := by
  unfold mkEntryOut
  split <;> rfl

theorem finishPhase_status (env : Env) (cfg : RunConfig) (title ek : String)
    (st : LoopState) (acc : EntryAcc) :
    (finishPhase env cfg title ek st acc).2.status = acc.status := by
  unfold finishPhase
  rcases h : acc.canonical_key with _ | k <;> split <;> simp only [h]

/-- Every successful `resolveEntry` result is the finish phase of some
intermediate state, packaged by `mkEntryOut`/`mkDetails`. -/
theorem resolveEntry_shape (env : Env) (cfg : RunConfig) (i : Nat) (e : Entry)
    (st st' : LoopState) (o : EntryOut)
    (h : resolveEntry env cfg i e st = .ok (st', o)) :
    ∃ stx accx,
      st' = (finishPhase env cfg (guess_title e)
        ((optTruthy e.ID).getD ("row_" ++ toString i)) stx accx).1 ∧
      o = mkEntryOut e ((optTruthy e.ID).getD ("row_" ++ toString i))
        (finishPhase env cfg (guess_title e)
          ((optTruthy e.ID).getD ("row_" ++ toString i)) stx accx).2
        (mkDetails (normalize_doiS (orStr e.doi e.DOI))
          (finishPhase env cfg (guess_title e)
            ((optTruthy e.ID).getD ("row_" ++ toString i)) stx accx).2) := by
  unfold resolveEntry at h
  split at h
  · cases h
  · dsimp only [] at h
    split at h
    · cases h
    · split at h
      · cases h
      · rename_i p4 hbp
        simp only [Except.ok.injEq, Prod.mk.injEq] at h
        exact ⟨p4.1, p4.2, h.1.symm, h.2.symm⟩

/-- Claim C6 counterexample: an entry with a valid DOI, an empty cache,
downloading disabled and no local file generates no candidate at all, yet
the record's missing reason is `pdf_not_resolved`, not the claimed
`not_found`. -/
theorem C6_counterexample :
    (run nullEnv cfgNoDownload [entryDoi]).map
        (fun r => r.changes.map (fun c => c.details.candidate_count)) = .ok [0] ∧
    (run nullEnv cfgNoDownload [entryDoi]).map
        (fun r => (lookupRecord r.saved_index "doi:10.1145/123.456").map
          (fun rec => rec.missing_reason)) =
      .ok (some (some "pdf_not_resolved")) ∧
    (some "pdf_not_resolved" : Option String) ≠ some "not_found" := by
  exact ⟨by rfl, by rfl, by decide⟩

/-- Claim C6 (amended): an entry that ends a run unresolved is recorded
missing with reason `pdf_not_resolved` whenever no more specific
browser-assist reason was set; the `not_found` placeholder never survives
to the record or the details, even when no candidate was generated.  In
particular (scenario) a first run on `{doi: 10.1145/123.456}` with an
empty cache, download disabled and no local file yields a missing record
with reason `pdf_not_resolved` and `failure_count = 1`. -/
theorem C6_missing_reason (env : Env) (cfg : RunConfig) :
    (∀ title ek st acc, acc.status ≠ "found" → acc.missing_reason = "not_found" →
      (finishPhase env cfg title ek st acc).2.missing_reason = "pdf_not_resolved" ∧
      (∀ k, acc.canonical_key = some k →
        ∃ rec, lookupRecord (finishPhase env cfg title ek st acc).1.index k = some rec ∧
          rec.status = "missing" ∧ rec.missing_reason = some "pdf_not_resolved")) ∧
    (∀ title ek st acc, acc.status ≠ "found" →
      (finishPhase env cfg title ek st acc).2.missing_reason ≠ "not_found") ∧
    (∀ i e st st' o, resolveEntry env cfg i e st = .ok (st', o) →
      o.status ≠ "found" → o.details.missing_reason ≠ some "not_found") ∧
    (run nullEnv cfgNoDownload [entryDoi]).map (fun r =>
        (r.changes.map (fun c => (c.details.pdf_status, c.details.missing_reason)),
         (lookupRecord r.saved_index "doi:10.1145/123.456").map
           (fun rec => (rec.status, rec.missing_reason, rec.failure_count)))) =
      .ok ([("missing", some "pdf_not_resolved")],
           some ("missing", some "pdf_not_resolved", 1)) := by
  have hfin : ∀ title ek st acc, acc.status ≠ "found" →
      (finishPhase env cfg title ek st acc).2.missing_reason =
        (if acc.missing_reason = "not_found" then "pdf_not_resolved"
         else acc.missing_reason) ∧
      (∀ k, acc.canonical_key = some k →
        lookupRecord (finishPhase env cfg title ek st acc).1.index k =
          some (mark_record_missing st.index k (optTruthyS title) none none
            (if acc.missing_reason = "not_found" then "pdf_not_resolved"
             else acc.missing_reason)
            cfg.project_id cfg.step_id (some ek) env.now).2) := by
    intro title ek st acc h1
    unfold finishPhase
    rw [if_pos h1]
    rcases hk : acc.canonical_key with _ | k
    · refine ⟨rfl, ?_⟩
      intro k' hk'
      cases hk'
    · refine ⟨rfl, ?_⟩
      intro k' hk'
      cases hk'
      exact lookup_mark_missing st.index k (optTruthyS title) none none
        (if acc.missing_reason = "not_found" then "pdf_not_resolved"
         else acc.missing_reason)
        cfg.project_id cfg.step_id (some ek) env.now
  refine ⟨?_, ?_, ?_, by rfl⟩
  · intro title ek st acc h1 h2
    obtain ⟨hr, hl⟩ := hfin title ek st acc h1
    rw [h2] at hr hl
    simp only [if_pos rfl] at hr hl
    refine ⟨hr, ?_⟩
    intro k hk
    exact ⟨_, hl k hk, rfl, rfl⟩
  · intro title ek st acc h1
    obtain ⟨hr, -⟩ := hfin title ek st acc h1
    rw [hr]
    by_cases h2 : acc.missing_reason = "not_found"
    · rw [if_pos h2]
      decide
    · rw [if_neg h2]
      exact h2
  · intro i e st st' o hre hst
    obtain ⟨stx, accx, -, ho⟩ := resolveEntry_shape env cfg i e st st' o hre
    have hstatus : o.status =
        (finishPhase env cfg (guess_title e)
          ((optTruthy e.ID).getD ("row_" ++ toString i)) stx accx).2.status := by
      rw [ho, mkEntryOut_status]
    have haccx : accx.status ≠ "found" := by
      rw [← finishPhase_status env cfg (guess_title e)
        ((optTruthy e.ID).getD ("row_" ++ toString i)) stx accx, ← hstatus]
      exact hst
    have hfs := finishPhase_status env cfg (guess_title e)
      ((optTruthy e.ID).getD ("row_" ++ toString i)) stx accx
    have hnr := (hfin (guess_title e)
      ((optTruthy e.ID).getD ("row_" ++ toString i)) stx accx haccx).1
    have hdet : o.details.missing_reason =
        some (finishPhase env cfg (guess_title e)
          ((optTruthy e.ID).getD ("row_" ++ toString i)) stx accx).2.missing_reason := by
      rw [ho, mkEntryOut_details]
      unfold mkDetails
      simp only []
      rw [if_neg]
      rw [hfs]
      exact haccx
    rw [hdet, hnr]
    by_cases h2 : accx.missing_reason = "not_found"
    · rw [if_pos h2]
      decide
    · rw [if_neg h2]
      intro hcon
      exact h2 (Option.some.inj hcon)

/-- Claim C6 witness: the finish phase applied to a concrete unresolved
accumulator marks the concrete record `pdf_not_resolved`. -/
theorem C6_missing_reason_witness :
    (finishPhase nullEnv cfgNoDownload "T" "e1"
        (initState nullEnv cfgNoDownload)
        (initAcc (some "doi:10.1145/123.456"))).2.missing_reason =
      "pdf_not_resolved" := by
  exact ((C6_missing_reason nullEnv cfgNoDownload).1 "T" "e1"
    (initState nullEnv cfgNoDownload) (initAcc (some "doi:10.1145/123.456"))
    (by decide) rfl).1

end PdfFetch

namespace PdfFetch

/-- Claim C5 counterexample: with downloading disabled but browser assist
enabled and a working browser runtime, an unresolved entry with a DOI is
*not* given to the browser-assist session — the run makes zero attempts,
marks the entry's details `browser_assist_used = false`, and ends with the
generic `pdf_not_resolved` reason.  The claim's premise (browser assist
enabled, DOI present, entry unresolved) holds, but its conclusion (the
session is started and `resolve` is called) fails, because line 1069 also
requires `download_enabled`. -/
theorem C5_counterexample :
    cfgBrowserOnly.browser_assist_enabled = some true ∧
    cfgBrowserOnly.download_enabled = some false ∧
    entryDoi.doi = some "10.1145/123.456" ∧
    (∃ s, browserOkEnv.browserStart 0 = .ok s) ∧
    (run browserOkEnv cfgBrowserOnly [entryDoi]).map
        (fun r => (r.ba_attempted,
          r.changes.map (fun c => (c.details.browser_assist_used,
            c.details.pdf_status, c.details.missing_reason)))) =
      .ok (0, [(false, "missing", some "pdf_not_resolved")]) := by
  exact ⟨rfl, rfl, rfl, ⟨_, rfl⟩, by rfl⟩

/-- Claim C5 (amended): for an entry still unresolved after the cache,
local-file and direct phases, *when downloading is also enabled*: if
browser assist is (still) enabled and the entry has a DOI or entry URL,
the orchestrator lazily starts the session and calls resolve; a session
that fails to start yields `browser_assist_unavailable` and disables
browser assist for the rest of the batch; a timeout yields
`browser_assist_unresolved`; a raised error yields `browser_assist_error`;
a resolved call records the entry found with source `browser_assist`.
When browser assist has been disabled (or downloading is disabled), the
phase is a no-op. -/
theorem C5_browser_assist (env : Env) (cfg : RunConfig) (i : Nat)
    (doi : Option String) (entry_url : String) (title ek : String)
    (st : LoopState) (acc : EntryAcc) :
    (st.browser_assist_enabled = false →
      browserPhase env cfg i doi entry_url title ek st acc = .ok (st, acc)) ∧
    (cfg.download_enabled.getD true = false →
      browserPhase env cfg i doi entry_url title ek st acc = .ok (st, acc)) ∧
    (acc.status ≠ "found" → cfg.download_enabled.getD true = true →
      st.browser_assist_enabled = true → (doi.isSome ∨ entry_url ≠ "") →
      ((∀ er, st.session = none → env.browserStart i = .error er →
        ∃ st' acc', browserPhase env cfg i doi entry_url title ek st acc = .ok (st', acc') ∧
          st'.browser_assist_enabled = false ∧
          st'.session = none ∧
          st'.browser_attempted = st.browser_attempted + 1 ∧
          st'.browser_errors = st.browser_errors + 1 ∧
          acc'.entry_browser_assist_used = true ∧
          acc'.entry_browser_assist_result = some "unavailable" ∧
          acc'.missing_reason = "browser_assist_unavailable" ∧
          acc'.status = acc.status) ∧
      (∀ s stats, st.session = some s → s.resolveAt i = .timeout stats →
        acc.missing_reason = "not_found" →
        acc.entry_browser_assist_result = none →
        ∃ st' acc', browserPhase env cfg i doi entry_url title ek st acc = .ok (st', acc') ∧
          st'.browser_attempted = st.browser_attempted + 1 ∧
          st'.index = st.index ∧
          acc'.entry_browser_assist_used = true ∧
          acc'.entry_browser_assist_result = some "unresolved" ∧
          acc'.missing_reason = "browser_assist_unresolved" ∧
          acc'.status = acc.status) ∧
      (∀ s er stats, st.session = some s → s.resolveAt i = .raised er stats →
        ∃ st' acc', browserPhase env cfg i doi entry_url title ek st acc = .ok (st', acc') ∧
          st'.browser_attempted = st.browser_attempted + 1 ∧
          st'.browser_errors = st.browser_errors + 1 ∧
          st'.browser_last_error = some er ∧
          acc'.entry_browser_assist_used = true ∧
          acc'.entry_browser_assist_result = some "error" ∧
          acc'.missing_reason = "browser_assist_error" ∧
          acc'.status = acc.status) ∧
      (∀ s body fu ct prov stats k, st.session = some s →
        s.resolveAt i = .resolved body fu ct prov stats →
        synthKey acc.canonical_key fu ek = .ok k →
        ∃ st' acc', browserPhase env cfg i doi entry_url title ek st acc = .ok (st', acc') ∧
          acc'.status = "found" ∧
          acc'.resolved_source = some "browser_assist" ∧
          acc'.resolved_provider = some prov ∧
          acc'.canonical_key = some k ∧
          acc'.entry_browser_assist_result = some "resolved" ∧
          st'.browser_resolved = st.browser_resolved + 1 ∧
          st'.downloaded_count = st.downloaded_count + 1 ∧
          (∃ rec, lookupRecord st'.index k = some rec ∧
            rec.status = "found" ∧ rec.source = some "browser_assist" ∧
            rec.provider = some prov ∧ rec.source_url = some fu)))) := by
  refine ⟨?_, ?_, ?_⟩
  · intro h
    unfold browserPhase
    rw [if_neg]
    rintro ⟨-, -, hb, -⟩
    rw [h] at hb
    cases hb
  · intro h
    unfold browserPhase
    rw [if_neg]
    rintro ⟨-, hd, -, -⟩
    rw [h] at hd
    cases hd
  · intro h1 h2 h3 h4
    have hcond : acc.status ≠ "found" ∧ cfg.download_enabled.getD true = true ∧
        st.browser_assist_enabled = true ∧ (doi.isSome = true ∨ entry_url ≠ "") := by
      refine ⟨h1, h2, h3, ?_⟩
      rcases h4 with h | h
      · exact Or.inl h
      · exact Or.inr h
    refine ⟨?_, ?_, ?_, ?_⟩
    · intro er hsess hstart
      unfold browserPhase
      rw [if_pos hcond]
      dsimp only []
      rw [hsess, hstart]
      exact ⟨_, _, rfl, rfl, rfl, rfl, rfl, rfl, rfl, rfl, rfl⟩
    · intro s stats hsess hres hmr hbr
      unfold browserPhase
      rw [if_pos hcond]
      dsimp only []
      rw [hsess]
      dsimp only []
      rw [if_pos (show ({ acc with entry_browser_assist_used := true } : EntryAcc).status ≠ "found" from h1)]
      rw [hres]
      dsimp only []
      rw [hmr, hbr]
      refine ⟨_, _, rfl, rfl, rfl, rfl, rfl, ?_, rfl⟩
      dsimp only []
      rw [if_pos rfl]
    · intro s er stats hsess hres
      unfold browserPhase
      rw [if_pos hcond]
      dsimp only []
      rw [hsess]
      dsimp only []
      rw [if_pos (show ({ acc with entry_browser_assist_used := true } : EntryAcc).status ≠ "found" from h1)]
      rw [hres]
      exact ⟨_, _, rfl, rfl, rfl, rfl, rfl, rfl, rfl, rfl⟩
    · intro s body fu ct prov stats k hsess hres hkey
      unfold browserPhase
      rw [if_pos hcond]
      dsimp only []
      rw [hsess]
      dsimp only []
      rw [if_pos (show ({ acc with entry_browser_assist_used := true } : EntryAcc).status ≠ "found" from h1)]
      rw [hres]
      dsimp only []
      rw [hkey]
      refine ⟨_, _, rfl, rfl, rfl, rfl, rfl, rfl, rfl, rfl, ?_⟩
      refine ⟨_, lookup_mark_found st.index k (optTruthyS title) none none
        (managed_pdf_path_for_key env.filesDir k) true "browser_assist"
        (some fu) (some prov) (some ct) cfg.project_id cfg.step_id (some ek)
        env.now (env.fileSize (managed_pdf_path_for_key env.filesDir k)),
        rfl, rfl, rfl, rfl⟩

end PdfFetch

namespace PdfFetch

/-- Claim C5 witness: the amended browser-assist contract applied at a
concrete unresolved entry whose session fails to start. -/
theorem C5_browser_assist_witness :
    ∃ st' acc',
      browserPhase nullEnv ⟨none, none, some true, some true, none, none, none⟩ 0
          (some "10.1145/123.456") "" "T" "e1"
          (initState nullEnv ⟨none, none, some true, some true, none, none, none⟩)
          (initAcc (some "doi:10.1145/123.456")) = .ok (st', acc') ∧
      st'.browser_assist_enabled = false ∧
      st'.session = none ∧
      st'.browser_attempted =
        (initState nullEnv ⟨none, none, some true, some true, none, none, none⟩).browser_attempted + 1 ∧
      st'.browser_errors =
        (initState nullEnv ⟨none, none, some true, some true, none, none, none⟩).browser_errors + 1 ∧
      acc'.entry_browser_assist_used = true ∧
      acc'.entry_browser_assist_result = some "unavailable" ∧
      acc'.missing_reason = "browser_assist_unavailable" ∧
      acc'.status = (initAcc (some "doi:10.1145/123.456")).status := by
  exact ((C5_browser_assist nullEnv ⟨none, none, some true, some true, none, none, none⟩ 0
    (some "10.1145/123.456") "" "T" "e1"
    (initState nullEnv ⟨none, none, some true, some true, none, none, none⟩)
    (initAcc (some "doi:10.1145/123.456"))).2.2
    (by decide) rfl rfl (Or.inl rfl)).1 "playwright is not installed" rfl rfl

end PdfFetch

namespace PdfFetch

theorem mkEntryOut_entry (e : Entry) (ek : String) (acc : EntryAcc) (d : Details) :
    (mkEntryOut e ek acc d).entry = e := by
  unfold mkEntryOut
  split <;> rfl

theorem resolveEntry_entry (env : Env) (cfg : RunConfig) (i : Nat) (e : Entry)
    (st st' : LoopState) (o : EntryOut)
    (h : resolveEntry env cfg i e st = .ok (st', o)) : o.entry = e := by
  obtain ⟨stx, accx, -, ho⟩ := resolveEntry_shape env cfg i e st st' o h
  rw [ho, mkEntryOut_entry]

/-- The loop emits exactly one outcome per entry, in order. -/
theorem runLoop_entries (env : Env) (cfg : RunConfig) :
    ∀ (es : List Entry) (n : Nat) (st stF : LoopState) (outs : List EntryOut),
      runLoop env cfg n st es = .ok (stF, outs) →
      outs.map (fun o => o.entry) = es := by
  intro es
  induction es with
  | nil =>
    intro n st stF outs h
    unfold runLoop at h
    simp only [Except.ok.injEq, Prod.mk.injEq] at h
    rw [← h.2]
    rfl
  | cons e t ih =>
    intro n st stF outs h
    unfold runLoop at h
    split at h
    · cases h
    · rename_i st1 o hre
      split at h
      · cases h
      · rename_i st2 os hrl
        simp only [Except.ok.injEq, Prod.mk.injEq] at h
        rw [← h.2]
        simp only [List.map_cons]
        rw [resolveEntry_entry env cfg n e st st1 o hre, ih (n + 1) st1 st2 os hrl]

/-- Claim C1: `run` passes every input entry downstream in `all` mode and
exactly the resolved entries in `pdf_only` mode; `pdf_found`/`pdf_missing`
partition the inputs by resolution outcome, in order, independently of the
pass mode; and the returned details always retain both change-sets and
both mode outputs, so either mode's result can be read off the other
mode's run.  The final conjunct is the spec scenario: three entries with
one resolved give `passed`/`pdf_missing` of lengths 1 and 2 under
`pdf_only`, and all three pass under `all` on the same environment. -/
theorem C1_run_pass_through (env : Env) (cfg : RunConfig) (entries : List Entry) :
    (∀ r, run env { cfg with pass_mode := some "all" } entries = .ok r →
      r.passed = entries ∧ r.pass_mode = "all" ∧
      r.changes = r.mode_changes_all ∧
      r.mode_outputs_all = entries ∧ r.mode_outputs_pdf_only = r.pdf_found) ∧
    (∀ r, run env { cfg with pass_mode := some "pdf_only" } entries = .ok r →
      r.passed = r.pdf_found ∧ r.pass_mode = "pdf_only" ∧
      r.changes = r.mode_changes_pdf_only ∧
      r.mode_outputs_all = entries ∧ r.mode_outputs_pdf_only = r.pdf_found) ∧
    (∀ r stF outs, run env cfg entries = .ok r →
      runLoop env cfg 0 (initState env cfg) entries = .ok (stF, outs) →
      r.pdf_found = (outs.filter (fun o => o.status = "found")).map (fun o => o.entry) ∧
      r.pdf_missing = (outs.filter (fun o => o.status ≠ "found")).map (fun o => o.entry) ∧
      r.mode_changes_all = outs.map (fun o => o.change_all) ∧
      r.mode_changes_pdf_only = outs.map (fun o => o.change_pdf_only) ∧
      outs.map (fun o => o.entry) = entries) ∧
    ((run env { cfg with pass_mode := some "all" } entries).map
        (fun r => (r.pdf_found, r.pdf_missing, r.mode_changes_all, r.mode_changes_pdf_only)) =
      (run env { cfg with pass_mode := some "pdf_only" } entries).map
        (fun r => (r.pdf_found, r.pdf_missing, r.mode_changes_all, r.mode_changes_pdf_only))) ∧
    (∀ r1 r2, run env { cfg with pass_mode := some "all" } entries = .ok r1 →
      run env { cfg with pass_mode := some "pdf_only" } entries = .ok r2 →
      r1.mode_outputs_pdf_only = r2.passed ∧
      r1.mode_changes_pdf_only = r2.changes ∧
      r2.mode_outputs_all = r1.passed ∧
      r2.mode_changes_all = r1.changes) ∧
    ((run localHitEnv cfgPdfOnlyMode [entryA, entryB, entryC]).map
        (fun r => (r.passed.length, r.pdf_missing.length)) = .ok (1, 2) ∧
      (run localHitEnv cfgAllMode [entryA, entryB, entryC]).map (fun r => r.passed) =
        .ok [entryA, entryB, entryC] ∧
      (run localHitEnv cfgPdfOnlyMode [entryA, entryB, entryC]).map
          (fun r => r.mode_outputs_pdf_only) =
        (run localHitEnv cfgAllMode [entryA, entryB, entryC]).map
          (fun r => r.mode_outputs_pdf_only)) := by
  have hma : effPassMode { cfg with pass_mode := some "all" } = "all" := rfl
  have hmp : effPassMode { cfg with pass_mode := some "pdf_only" } = "pdf_only" := rfl
  refine ⟨?_, ?_, ?_, ?_, ?_, by rfl, by rfl, by rfl⟩
  · intro r hr
    unfold run at hr
    rw [hma] at hr
    rcases hrl : runLoop env { cfg with pass_mode := some "all" } 0
        (initState env { cfg with pass_mode := some "all" }) entries with er | p <;>
      rw [hrl] at hr
    · cases hr
    · obtain ⟨stF, outs⟩ := p
      simp only [Except.ok.injEq] at hr
      subst hr
      exact ⟨rfl, rfl, rfl, rfl, rfl⟩
  · intro r hr
    unfold run at hr
    rw [hmp] at hr
    rcases hrl : runLoop env { cfg with pass_mode := some "pdf_only" } 0
        (initState env { cfg with pass_mode := some "pdf_only" }) entries with er | p <;>
      rw [hrl] at hr
    · cases hr
    · obtain ⟨stF, outs⟩ := p
      simp only [Except.ok.injEq] at hr
      subst hr
      refine ⟨?_, rfl, rfl, rfl, rfl⟩
      dsimp only []
      rw [if_neg]
      decide
  · intro r stF outs hr hrl
    unfold run at hr
    rw [hrl] at hr
    simp only [Except.ok.injEq] at hr
    subst hr
    exact ⟨rfl, rfl, rfl, rfl, runLoop_entries env cfg entries 0 _ stF outs hrl⟩
  · unfold run
    rw [hma, hmp, runLoop_pass_mode_eq env cfg (some "all"),
      initState_pass_mode_eq env cfg (some "all"),
      runLoop_pass_mode_eq env cfg (some "pdf_only"),
      initState_pass_mode_eq env cfg (some "pdf_only")]
    rcases hrl : runLoop env cfg 0 (initState env cfg) entries with er | ⟨stF, outs⟩
    · rfl
    · rfl
  · intro r1 r2 hr1 hr2
    unfold run at hr1 hr2
    rw [hma] at hr1
    rw [hmp] at hr2
    rw [runLoop_pass_mode_eq, initState_pass_mode_eq] at hr1 hr2
    rcases hrl : runLoop env cfg 0 (initState env cfg) entries with er | p <;>
      rw [hrl] at hr1 hr2
    · cases hr1
    · obtain ⟨stF, outs⟩ := p
      simp only [Except.ok.injEq] at hr1 hr2
      subst hr1
      subst hr2
      refine ⟨?_, ?_, ?_, ?_⟩
      · dsimp only []
        rw [if_neg (by decide)]
      · dsimp only []
        rw [if_neg (by decide)]
      · dsimp only []
        rw [if_true]
      · dsimp only []
        rw [if_true]

end PdfFetch

namespace PdfFetch

/-! ### Lemmas on `charLower` and `lowerPy` -/

theorem charLower_cases (c : Char) :
    charLower c = c ∨ ('a' ≤ charLower c ∧ charLower c ≤ 'z' ∧ ¬('a' ≤ c ∧ c ≤ 'z')) := by
  unfold charLower
  split <;> first | exact Or.inl rfl | exact Or.inr (by decide)

theorem charLower_of_lower (c : Char) (h1 : 'a' ≤ c) (h2 : c ≤ 'z') : charLower c = c := by
  unfold charLower
  split <;> first | rfl | exact absurd h1 (by decide)

theorem charLower_idem (c : Char) : charLower (charLower c) = charLower c := by
  rcases charLower_cases c with h | ⟨h1, h2, _⟩
  · exact congrArg charLower h
  · exact charLower_of_lower _ h1 h2

theorem charLower_preimage (c ch : Char) (hch : ¬('a' ≤ ch ∧ ch ≤ 'z'))
    (h : charLower c = ch) : c = ch := by
  rcases charLower_cases c with h0 | ⟨h1, h2, _⟩
  · exact h0.symm.trans h
  · exact absurd ⟨h ▸ h1, h ▸ h2⟩ hch

theorem lowerPy_idem (l : List Char) : lowerPy (lowerPy l) = lowerPy l := by
  unfold lowerPy
  rw [List.map_map]
  exact List.map_congr_left (fun a _ => charLower_idem a)

theorem not_mem_lowerPy (ch : Char) (l : List Char) (hch : ¬('a' ≤ ch ∧ ch ≤ 'z'))
    (h : ch ∉ l) : ch ∉ lowerPy l := by
  intro hm
  obtain ⟨c0, hc0, hlow⟩ := List.mem_map.mp hm
  exact h (charLower_preimage c0 ch hch hlow ▸ hc0)

/-! ### Lemmas on `dropEnds`, `pyStrip`, `stripSet`, `takeBefore` -/

theorem dropWhile_eq_self_of_head (p : Char → Bool) (l : List Char)
    (h : ∀ c, l.head? = some c → p c = false) : l.dropWhile p = l := by
  cases l with
  | nil => rfl
  | cons c t => simp [List.dropWhile_cons, h c rfl]

theorem dropEnds_eq_self (p : Char → Bool) (l : List Char)
    (hh : ∀ c, l.head? = some c → p c = false)
    (hl : ∀ c, l.getLast? = some c → p c = false) : dropEnds p l = l := by
  unfold dropEnds
  rw [dropWhile_eq_self_of_head p l hh,
    dropWhile_eq_self_of_head p l.reverse
      (fun c hc => hl c (by rwa [List.head?_reverse] at hc)),
    List.reverse_reverse]

theorem head?_dropWhile (p : Char → Bool) (l : List Char) (c : Char)
    (h : (l.dropWhile p).head? = some c) : p c = false := by
  induction l with
  | nil => cases h
  | cons a t ih =>
    rw [List.dropWhile_cons] at h
    by_cases hp : p a = true
    · rw [if_pos hp] at h
      exact ih h
    · rw [if_neg hp] at h
      simp only [List.head?_cons, Option.some.injEq] at h
      subst h
      simpa using hp

theorem getLast?_dropEnds (p : Char → Bool) (l : List Char) (c : Char)
    (h : (dropEnds p l).getLast? = some c) : p c = false := by
  unfold dropEnds at h
  rw [List.getLast?_reverse] at h
  exact head?_dropWhile p _ c h

theorem mem_dropEnds (p : Char → Bool) (l : List Char) (c : Char)
    (h : c ∈ dropEnds p l) : c ∈ l := by
  unfold dropEnds at h
  rw [List.mem_reverse] at h
  replace h := (List.dropWhile_sublist _).subset h
  rw [List.mem_reverse] at h
  exact (List.dropWhile_sublist _).subset h

theorem mem_takeBefore (ch c : Char) (l : List Char) (h : c ∈ takeBefore ch l) : c ∈ l :=
  (List.takeWhile_sublist _).subset h

theorem not_mem_takeBefore (ch : Char) (l : List Char) : ch ∉ takeBefore ch l := by
  intro h
  have := List.mem_takeWhile_imp h
  simp at this

theorem takeBefore_eq_self (ch : Char) (l : List Char) (h : ch ∉ l) : takeBefore ch l = l := by
  induction l with
  | nil => rfl
  | cons a t ih =>
    simp only [List.mem_cons, not_or] at h
    unfold takeBefore at ih ⊢
    rw [List.takeWhile_cons, if_pos (decide_eq_true (Ne.symm h.1)), ih h.2]

theorem not_mem_removeAllChar (ch : Char) (l : List Char) : ch ∉ removeAllChar ch l := by
  intro h
  have := List.of_mem_filter h
  simp at this

end PdfFetch

namespace PdfFetch

/-! ### Lemmas on `splitFirst` and `splitLast` -/

theorem splitFirst_eq_some (ch : Char) :
    ∀ (l a b : List Char), splitFirst ch l = some (a, b) → l = a ++ ch :: b ∧ ch ∉ a := by
  intro l
  induction l with
  | nil => intro a b h; cases h
  | cons x t ih =>
    intro a b h
    unfold splitFirst at h
    by_cases hx : x = ch
    · rw [if_pos hx] at h
      simp only [Option.some.injEq, Prod.mk.injEq] at h
      obtain ⟨ha, hb⟩ := h
      subst ha
      subst hb
      subst hx
      exact ⟨rfl, List.not_mem_nil _⟩
    · rw [if_neg hx] at h
      cases hsf : splitFirst ch t with
      | none => rw [hsf] at h; cases h
      | some p =>
        rw [hsf] at h
        obtain ⟨p1, p2⟩ := p
        simp only [Option.map_some', Option.some.injEq, Prod.mk.injEq] at h
        obtain ⟨ha, hb⟩ := h
        obtain ⟨he, hm⟩ := ih p1 p2 hsf
        subst ha
        subst hb
        refine ⟨by rw [he]; rfl, ?_⟩
        simp only [List.mem_cons, not_or]
        exact ⟨fun hcx => hx hcx.symm, hm⟩

theorem splitFirst_eq_none (ch : Char) :
    ∀ l : List Char, splitFirst ch l = none → ch ∉ l := by
  intro l
  induction l with
  | nil => intro _ h; cases h
  | cons x t ih =>
    intro h
    unfold splitFirst at h
    by_cases hx : x = ch
    · rw [if_pos hx] at h; cases h
    · rw [if_neg hx] at h
      simp only [List.mem_cons, not_or]
      refine ⟨fun hcx => hx hcx.symm, ?_⟩
      apply ih
      cases hsf : splitFirst ch t with
      | none => rfl
      | some p => rw [hsf] at h; cases h

theorem splitFirst_app (ch : Char) :
    ∀ (a b : List Char), ch ∉ a → splitFirst ch (a ++ ch :: b) = some (a, b) := by
  intro a
  induction a with
  | nil =>
    intro b _
    rw [List.nil_append]
    unfold splitFirst
    rw [if_pos rfl]
  | cons x t ih =>
    intro b h
    simp only [List.mem_cons, not_or] at h
    rw [List.cons_append]
    unfold splitFirst
    rw [if_neg (Ne.symm h.1), ih b h.2]
    rfl

theorem splitFirst_not_mem (ch : Char) :
    ∀ l : List Char, ch ∉ l → splitFirst ch l = none := by
  intro l
  induction l with
  | nil => intro _; rfl
  | cons x t ih =>
    intro h
    simp only [List.mem_cons, not_or] at h
    unfold splitFirst
    rw [if_neg (Ne.symm h.1), ih h.2]
    rfl

theorem splitLast_eq_some (ch : Char) (l a b : List Char)
    (h : splitLast ch l = some (a, b)) : l = a ++ ch :: b ∧ ch ∉ b := by
  unfold splitLast at h
  cases hsf : splitFirst ch l.reverse with
  | none => rw [hsf] at h; cases h
  | some p =>
    rw [hsf] at h
    obtain ⟨p1, p2⟩ := p
    simp only [Option.map_some', Option.some.injEq, Prod.mk.injEq] at h
    obtain ⟨ha, hb⟩ := h
    obtain ⟨he, hm⟩ := splitFirst_eq_some ch l.reverse p1 p2 hsf
    subst ha
    subst hb
    constructor
    · have h2 := congrArg List.reverse he
      rw [List.reverse_reverse] at h2
      rw [h2]
      simp [List.reverse_append]
    · simpa using hm

theorem splitLast_app (ch : Char) (a b : List Char) (h : ch ∉ b) :
    splitLast ch (a ++ ch :: b) = some (a, b) := by
  unfold splitLast
  have he : (a ++ ch :: b).reverse = b.reverse ++ ch :: a.reverse := by
    simp [List.reverse_append]
  rw [he, splitFirst_app ch b.reverse a.reverse (by simpa using h)]
  simp

/-! ### Suffix lemmas for `ciDrop` and the DOI scheme strippers -/

theorem ciDrop_suffix : ∀ (p l r : List Char), ciDrop p l = some r → r <:+ l := by
  intro p
  induction p with
  | nil =>
    intro l r h
    unfold ciDrop at h
    simp only [Option.some.injEq] at h
    subst h
    exact List.suffix_refl _
  | cons q ps ih =>
    intro l r h
    cases l with
    | nil => cases h
    | cons c cs =>
      unfold ciDrop at h
      by_cases hc : charLower c = q
      · rw [if_pos hc] at h
        exact (ih cs r h).trans (List.suffix_cons c cs)
      · rw [if_neg hc] at h
        cases h

theorem stripDoiUrlScheme_suffix (l : List Char) : stripDoiUrlScheme l <:+ l := by
  unfold stripDoiUrlScheme
  cases h1 : ciDrop ['h', 't', 't', 'p'] l with
  | none => exact List.suffix_refl l
  | some r1 =>
    have hr1 : r1 <:+ l := ciDrop_suffix _ l r1 h1
    dsimp only []
    have hr2 : (match ciDrop ['s'] r1 with | some r => r | none => r1) <:+ r1 := by
      cases h2 : ciDrop ['s'] r1 with
      | none => exact List.suffix_refl r1
      | some r2 => exact ciDrop_suffix _ r1 r2 h2
    cases h3 : ciDrop [':', '/', '/'] (match ciDrop ['s'] r1 with | some r => r | none => r1) with
    | none => exact List.suffix_refl l
    | some r3 =>
      dsimp only []
      have hr3 : r3 <:+ l := ((ciDrop_suffix _ _ r3 h3).trans hr2).trans hr1
      cases h4 : ciDrop ['d', 'x', '.'] r3 with
      | none =>
        dsimp only []
        cases h5 : ciDrop ['d', 'o', 'i', '.', 'o', 'r', 'g', '/'] r3 with
        | none => exact List.suffix_refl l
        | some r5 => exact (ciDrop_suffix _ r3 r5 h5).trans hr3
      | some r4 =>
        dsimp only []
        cases h5 : ciDrop ['d', 'o', 'i', '.', 'o', 'r', 'g', '/'] r4 with
        | none =>
          dsimp only []
          cases h6 : ciDrop ['d', 'o', 'i', '.', 'o', 'r', 'g', '/'] r3 with
          | none => exact List.suffix_refl l
          | some r5 => exact (ciDrop_suffix _ r3 r5 h6).trans hr3
        | some r5 =>
          exact ((ciDrop_suffix _ r4 r5 h5).trans (ciDrop_suffix _ r3 r4 h4)).trans hr3

theorem stripDoiLabelScheme_suffix (l : List Char) : stripDoiLabelScheme l <:+ l := by
  unfold stripDoiLabelScheme
  cases h : ciDrop ['d', 'o', 'i', ':'] l with
  | none => exact List.suffix_refl l
  | some r => exact (List.dropWhile_suffix _).trans (ciDrop_suffix _ l r h)

end PdfFetch

namespace PdfFetch

/-! ### `unquote` is the identity on percent-free strings -/

theorem pctBytes_cons (c : Char) (t : List Char) (h : c ≠ '%') :
    pctBytes (c :: t) = c.toNat :: pctBytes t := by
  rw [pctBytes.eq_def]
  split
  · rename_i heq
    exact absurd heq (List.cons_ne_nil c t)
  · rename_i heq
    injection heq with h1 _
    exact absurd h1 h
  · rename_i h1 h2
    injection h2 with h3 _
    exact absurd h3 h
  · rename_i c1 t1 heq
    injection heq with h1 h2
    rw [h1, h2]

theorem pctBytes_no_pct : ∀ l : List Char, '%' ∉ l → pctBytes l = l.map Char.toNat := by
  intro l
  induction l with
  | nil => intro _; rfl
  | cons c t ih =>
    intro h
    simp only [List.mem_cons, not_or] at h
    rw [pctBytes_cons c t (Ne.symm h.1), List.map_cons, ih h.2]

theorem utf8decode_ascii :
    ∀ bs : List Nat, (∀ b ∈ bs, b < 128) → utf8decode bs = bs.map Char.ofNat := by
  intro bs
  induction bs with
  | nil => intro _; rfl
  | cons b t ih =>
    intro h
    rw [utf8decode.eq_def]
    dsimp only []
    rw [if_pos (h b (List.mem_cons_self b t)), List.map_cons,
      ih (fun x hx => h x (List.mem_cons_of_mem b hx))]

theorem unquoteRun_no_pct (r : List Char) (hp : '%' ∉ r) (ha : ∀ c ∈ r, c.toNat < 128) :
    unquoteRun r = r := by
  unfold unquoteRun
  rw [pctBytes_no_pct r hp, utf8decode_ascii]
  · rw [List.map_map]
    exact (List.map_congr_left (fun c _ => Char.ofNat_toNat c)).trans (List.map_id r)
  · intro b hb
    obtain ⟨c, hc, rfl⟩ := List.mem_map.mp hb
    exact ha c hc

theorem unquoteGo_no_pct :
    ∀ l acc : List Char, '%' ∉ l → '%' ∉ acc → (∀ c ∈ acc, c.toNat < 128) →
      unquoteGo l acc = acc.reverse ++ l := by
  intro l
  induction l with
  | nil =>
    intro acc _ hacc hascii
    unfold unquoteGo
    rw [unquoteRun_no_pct acc.reverse (by simpa using hacc)
      (fun c hc => hascii c (List.mem_reverse.mp hc)), List.append_nil]
  | cons c t ih =>
    intro acc h hacc hascii
    simp only [List.mem_cons, not_or] at h
    unfold unquoteGo
    by_cases hca : c.toNat < 128
    · rw [if_pos hca, ih (c :: acc) h.2
        (by simp only [List.mem_cons, not_or]; exact ⟨h.1, hacc⟩)
        (by intro d hd
            rcases List.mem_cons.mp hd with h1 | h1
            · rw [h1]; exact hca
            · exact hascii d h1)]
      simp
    · rw [if_neg hca, unquoteRun_no_pct acc.reverse (by simpa using hacc)
        (fun d hd => hascii d (List.mem_reverse.mp hd)),
        ih [] h.2 (List.not_mem_nil _) (by intro d hd; cases hd)]
      simp

theorem unquotePy_no_pct (l : List Char) (h : '%' ∉ l) : unquotePy l = l := by
  unfold unquotePy
  rw [unquoteGo_no_pct l [] h (List.not_mem_nil _) (by intro d hd; cases hd)]
  rfl

end PdfFetch

namespace PdfFetch

/-! ### `normalize_doi` conditional idempotence -/

theorem contains_pair_eq_false (x y c : Char) (h1 : c ≠ x) (h2 : c ≠ y) :
    (([x, y] : List Char).contains c) = false := by
  simp [List.contains, h1, h2]

theorem contains_single_eq_false (x c : Char) (h1 : c ≠ x) :
    (([x] : List Char).contains c) = false := by
  simp [List.contains, h1]

theorem doiShape_eq_cons (l : List Char) (h : doiShape l = true) :
    ∃ rest, l = '1' :: '0' :: '.' :: rest := by
  unfold doiShape at h
  split at h
  · rename_i rest
    exact ⟨rest, rfl⟩
  · cases h

theorem stripDoiUrlScheme_of_one (l : List Char) :
    stripDoiUrlScheme ('1' :: l) = '1' :: l := by
  have h : ciDrop ['h', 't', 't', 'p'] ('1' :: l) = none := by
    unfold ciDrop
    rw [if_neg (by decide)]
  unfold stripDoiUrlScheme
  rw [h]

theorem stripDoiLabelScheme_of_one (l : List Char) :
    stripDoiLabelScheme ('1' :: l) = '1' :: l := by
  have h : ciDrop ['d', 'o', 'i', ':'] ('1' :: l) = none := by
    unfold ciDrop
    rw [if_neg (by decide)]
  unfold stripDoiLabelScheme
  rw [h]

theorem normalize_doi_some_shape (x d : List Char) (h : normalize_doi (some x) = some d) :
    ∃ w : List Char, '\\' ∉ w ∧
      d = lowerPy (stripSet ['/'] (pyStrip (takeBefore '#' (takeBefore '?' w)))) ∧
      doiShape d = true := by
  unfold normalize_doi at h
  dsimp only [] at h
  split at h
  · cases h
  · split at h
    · cases h
    · split at h
      · rename_i hshape
        simp only [Option.some.injEq] at h
        refine ⟨stripDoiLabelScheme (stripDoiUrlScheme (pyStrip (removeAllChar '\\'
          (unquotePy (stripSet ['\x7b', '\x7d'] (pyStrip x)))))), ?_, h.symm, h ▸ hshape⟩
        intro hm
        exact not_mem_removeAllChar '\\' _
          (mem_dropEnds _ _ _ ((stripDoiUrlScheme_suffix _).subset
            ((stripDoiLabelScheme_suffix _).subset hm)))
      · cases h

theorem normalize_doi_cond_idem (x d : List Char)
    (h : normalize_doi (some x) = some d)
    (hpct : '%' ∉ d)
    (hlast : ∀ c, d.getLast? = some c →
      isPySpace c = false ∧ c ≠ '\x7b' ∧ c ≠ '\x7d') :
    normalize_doi (some d) = some d := by
  obtain ⟨w, hwb, hd, hshape⟩ := normalize_doi_some_shape x d h
  obtain ⟨rest, hdc⟩ := doiShape_eq_cons d hshape
  have hmem : ∀ ch : Char, ¬('a' ≤ ch ∧ ch ≤ 'z') → ch ∈ d →
      ch ∈ takeBefore '#' (takeBefore '?' w) := by
    intro ch hch hm
    rw [hd] at hm
    obtain ⟨c0, hc0, hlow⟩ := List.mem_map.mp hm
    rw [charLower_preimage c0 ch hch hlow] at hc0
    exact mem_dropEnds _ _ _ (mem_dropEnds _ _ _ hc0)
  have hq : '?' ∉ d := fun hm =>
    not_mem_takeBefore '?' w (mem_takeBefore _ _ _ (hmem '?' (by decide) hm))
  have hh : '#' ∉ d := fun hm => not_mem_takeBefore '#' _ (hmem '#' (by decide) hm)
  have hbs : '\\' ∉ d := fun hm =>
    hwb (mem_takeBefore _ _ _ (mem_takeBefore _ _ _ (hmem '\\' (by decide) hm)))
  have hslash : ∀ c, d.getLast? = some c → c ≠ '/' := by
    intro c hc he
    subst he
    rw [hd] at hc
    rw [show lowerPy (stripSet ['/'] (pyStrip (takeBefore '#' (takeBefore '?' w)))) =
      List.map charLower (stripSet ['/'] (pyStrip (takeBefore '#' (takeBefore '?' w)))) from rfl,
      List.getLast?_map] at hc
    cases hg : (stripSet ['/'] (pyStrip (takeBefore '#' (takeBefore '?' w)))).getLast? with
    | none => rw [hg] at hc; cases hc
    | some c0 =>
      rw [hg] at hc
      simp only [Option.map_some', Option.some.injEq] at hc
      rw [charLower_preimage c0 '/' (by decide) hc] at hg
      have hfalse := getLast?_dropEnds (fun c => (['/'] : List Char).contains c)
        (pyStrip (takeBefore '#' (takeBefore '?' w))) '/' hg
      simp [List.contains] at hfalse
  have hlow : lowerPy d = d := by
    rw [hd]
    exact lowerPy_idem _
  have hne : d.isEmpty = false := by rw [hdc]; rfl
  have hhead : ∀ p : Char → Bool, p '1' = false → ∀ c, d.head? = some c → p c = false := by
    intro p hp c hc
    rw [hdc] at hc
    simp only [List.head?_cons, Option.some.injEq] at hc
    subst hc
    exact hp
  have e1 : pyStrip d = d :=
    dropEnds_eq_self _ _ (hhead isPySpace (by decide)) (fun c hc => (hlast c hc).1)
  have e2 : stripSet ['\x7b', '\x7d'] d = d :=
    dropEnds_eq_self _ _ (hhead _ (by decide))
      (by intro c hc
          obtain ⟨-, h1, h2⟩ := hlast c hc
          exact contains_pair_eq_false _ _ _ h1 h2)
  have e3 : unquotePy d = d := unquotePy_no_pct d hpct
  have e4 : removeAllChar '\\' d = d :=
    List.filter_eq_self.mpr (fun c hc => decide_eq_true (fun he => hbs (he ▸ hc)))
  have e6 : stripDoiUrlScheme d = d := by
    rw [hdc]
    exact stripDoiUrlScheme_of_one _
  have e7 : stripDoiLabelScheme d = d := by
    rw [hdc]
    exact stripDoiLabelScheme_of_one _
  have e8 : takeBefore '?' d = d := takeBefore_eq_self _ _ hq
  have e9 : takeBefore '#' d = d := takeBefore_eq_self _ _ hh
  have e11 : stripSet ['/'] d = d :=
    dropEnds_eq_self _ _ (hhead _ (by decide))
      (fun c hc => contains_single_eq_false _ _ (hslash c hc))
  unfold normalize_doi
  dsimp only []
  rw [e1, e2, e3, e4, e1, e6, e7, e8, e9, e1, e11, hlow, hne, hshape]
  simp

end PdfFetch

namespace PdfFetch

/-! ### Lemmas on the `urlsplit` sub-steps -/

theorem takeWhile_append_split (p : Char → Bool) :
    ∀ (a b : List Char), (∀ c ∈ a, p c = true) → (∀ c, b.head? = some c → p c = false) →
      (a ++ b).takeWhile p = a ∧ (a ++ b).dropWhile p = b := by
  intro a
  induction a with
  | nil =>
    intro b _ h2
    refine ⟨?_, dropWhile_eq_self_of_head p b h2⟩
    cases b with
    | nil => rfl
    | cons c t => rw [List.nil_append, List.takeWhile_cons, if_neg (by rw [h2 c rfl]; decide)]
  | cons x a1 ih =>
    intro b h1 h2
    have hx : p x = true := h1 x (List.mem_cons_self x a1)
    obtain ⟨ht, hd⟩ := ih b (fun c hc => h1 c (List.mem_cons_of_mem x hc)) h2
    rw [List.cons_append, List.takeWhile_cons, if_pos hx, ht, List.dropWhile_cons,
      if_pos hx, hd]
    exact ⟨rfl, rfl⟩

theorem mem_schemeSplit_snd (u1 : List Char) (c : Char)
    (h : c ∈ (schemeSplit u1).2) : c ∈ u1 := by
  unfold schemeSplit at h
  split at h
  · rename_i p0 pt post heq
    split at h
    · obtain ⟨hd, -⟩ := splitFirst_eq_some ':' u1 (p0 :: pt) post heq
      rw [hd]
      exact List.mem_append_right _ (List.mem_cons_of_mem ':' h)
    · exact h
  · exact h

theorem netlocSplit_app (h t : List Char)
    (hh : ∀ c ∈ h, isNetlocDelim c = false)
    (hht : ∀ c, t.head? = some c → isNetlocDelim c = true) :
    netlocSplit ('/' :: '/' :: (h ++ t)) = (h, t) := by
  unfold netlocSplit
  obtain ⟨h1, h2⟩ := takeWhile_append_split (fun c => !isNetlocDelim c) h t
    (fun c hc => by show (!isNetlocDelim c) = true; rw [hh c hc]; rfl)
    (fun c hc => by show (!isNetlocDelim c) = false; rw [hht c hc]; rfl)
  show (List.takeWhile (fun c => !isNetlocDelim c) (h ++ t),
    List.dropWhile (fun c => !isNetlocDelim c) (h ++ t)) = (h, t)
  rw [h1, h2]

theorem netlocFst_delim (r1 : List Char) (c : Char)
    (h : c ∈ (netlocSplit r1).1) : isNetlocDelim c = false := by
  unfold netlocSplit at h
  split at h
  · have := List.mem_takeWhile_imp h
    simpa using this
  · cases h

theorem netlocFst_mem (r1 : List Char) (c : Char)
    (h : c ∈ (netlocSplit r1).1) : c ∈ r1 := by
  unfold netlocSplit at h
  split at h
  · exact List.mem_cons_of_mem _ (List.mem_cons_of_mem _ ((List.takeWhile_sublist _).subset h))
  · cases h

theorem netlocSnd_mem (r1 : List Char) (c : Char)
    (h : c ∈ (netlocSplit r1).2) : c ∈ r1 := by
  unfold netlocSplit at h
  split at h
  · exact List.mem_cons_of_mem _ (List.mem_cons_of_mem _ ((List.dropWhile_sublist _).subset h))
  · exact h

theorem netlocSnd_head (r1 : List Char) (c : Char)
    (h : (netlocSplit r1).1 ≠ [] ∧ (netlocSplit r1).2.head? = some c) :
    isNetlocDelim c = true := by
  unfold netlocSplit at h
  split at h
  · have := head?_dropWhile _ _ _ h.2
    simpa using this
  · exact absurd rfl h.1

theorem fragSplit_no_hash (r2 : List Char) (h : '#' ∉ r2) : fragSplit r2 = (r2, []) := by
  unfold fragSplit
  rw [splitFirst_not_mem '#' r2 h]

theorem fragFst_no_hash (r2 : List Char) : '#' ∉ (fragSplit r2).1 := by
  unfold fragSplit
  cases hsp : splitFirst '#' r2 with
  | none => exact splitFirst_eq_none '#' r2 hsp
  | some p =>
    obtain ⟨p1, p2⟩ := p
    exact (splitFirst_eq_some '#' r2 p1 p2 hsp).2

theorem fragFst_mem (r2 : List Char) (c : Char) (h : c ∈ (fragSplit r2).1) : c ∈ r2 := by
  unfold fragSplit at h
  cases hsp : splitFirst '#' r2 with
  | none => rw [hsp] at h; exact h
  | some p =>
    obtain ⟨p1, p2⟩ := p
    rw [hsp] at h
    rw [(splitFirst_eq_some '#' r2 p1 p2 hsp).1]
    exact List.mem_append_left _ h

theorem fragFst_head (r2 : List Char) (c : Char)
    (h : (fragSplit r2).1.head? = some c) : r2.head? = some c := by
  unfold fragSplit at h
  cases hsp : splitFirst '#' r2 with
  | none => rw [hsp] at h; exact h
  | some p =>
    obtain ⟨p1, p2⟩ := p
    rw [hsp] at h
    rw [(splitFirst_eq_some '#' r2 p1 p2 hsp).1]
    cases p1 with
    | nil => cases h
    | cons a t => rw [List.cons_append]; exact h

theorem querySplit_no (r : List Char) (h : '?' ∉ r) : querySplit r = (r, []) := by
  unfold querySplit
  rw [splitFirst_not_mem '?' r h]

theorem querySplit_app (p q : List Char) (h : '?' ∉ p) :
    querySplit (p ++ '?' :: q) = (p, q) := by
  unfold querySplit
  rw [splitFirst_app '?' p q h]

theorem queryFst_no_q (r : List Char) : '?' ∉ (querySplit r).1 := by
  unfold querySplit
  cases hsp : splitFirst '?' r with
  | none => exact splitFirst_eq_none '?' r hsp
  | some p =>
    obtain ⟨p1, p2⟩ := p
    exact (splitFirst_eq_some '?' r p1 p2 hsp).2

theorem queryFst_mem (r : List Char) (c : Char) (h : c ∈ (querySplit r).1) : c ∈ r := by
  unfold querySplit at h
  cases hsp : splitFirst '?' r with
  | none => rw [hsp] at h; exact h
  | some p =>
    obtain ⟨p1, p2⟩ := p
    rw [hsp] at h
    rw [(splitFirst_eq_some '?' r p1 p2 hsp).1]
    exact List.mem_append_left _ h

theorem querySnd_mem (r : List Char) (c : Char) (h : c ∈ (querySplit r).2) : c ∈ r := by
  unfold querySplit at h
  cases hsp : splitFirst '?' r with
  | none => rw [hsp] at h; cases h
  | some p =>
    obtain ⟨p1, p2⟩ := p
    rw [hsp] at h
    rw [(splitFirst_eq_some '?' r p1 p2 hsp).1]
    exact List.mem_append_right _ (List.mem_cons_of_mem '?' h)

theorem queryFst_head (r : List Char) (c : Char)
    (h : (querySplit r).1.head? = some c) : r.head? = some c := by
  unfold querySplit at h
  cases hsp : splitFirst '?' r with
  | none => rw [hsp] at h; exact h
  | some p =>
    obtain ⟨p1, p2⟩ := p
    rw [hsp] at h
    rw [(splitFirst_eq_some '?' r p1 p2 hsp).1]
    cases p1 with
    | nil => cases h
    | cons a t => rw [List.cons_append]; exact h

theorem schemeSplit_http (rest : List Char) :
    schemeSplit (['h', 't', 't', 'p'] ++ ':' :: rest) = (['h', 't', 't', 'p'], rest) := by
  unfold schemeSplit
  rw [splitFirst_app ':' ['h', 't', 't', 'p'] rest (by decide)]
  dsimp only []
  rw [if_pos (by decide)]
  rfl

theorem schemeSplit_https (rest : List Char) :
    schemeSplit (['h', 't', 't', 'p', 's'] ++ ':' :: rest) = (['h', 't', 't', 'p', 's'], rest) := by
  unfold schemeSplit
  rw [splitFirst_app ':' ['h', 't', 't', 'p', 's'] rest (by decide)]
  dsimp only []
  rw [if_pos (by decide)]
  rfl

end PdfFetch

namespace PdfFetch

/-! ### Lemmas on `splitSemiParams` -/

theorem splitFirst_of_mem (ch : Char) (l : List Char) (h : ch ∈ l) :
    ∃ a b, splitFirst ch l = some (a, b) := by
  cases hsp : splitFirst ch l with
  | none => exact absurd h (splitFirst_eq_none ch l hsp)
  | some p =>
    obtain ⟨p1, p2⟩ := p
    exact ⟨p1, p2, rfl⟩

theorem splitLast_of_mem (ch : Char) (l : List Char) (h : ch ∈ l) :
    ∃ a b, splitLast ch l = some (a, b) := by
  cases hsp : splitLast ch l with
  | none =>
    unfold splitLast at hsp
    cases hsf : splitFirst ch l.reverse with
    | none =>
      exact absurd (List.mem_reverse.mpr h) (splitFirst_eq_none ch l.reverse hsf)
    | some p => rw [hsf] at hsp; cases hsp
  | some p =>
    obtain ⟨p1, p2⟩ := p
    exact ⟨p1, p2, rfl⟩

theorem mem_splitSemiParams (p : List Char) (c : Char) (h : c ∈ splitSemiParams p) :
    c ∈ p ∨ c = '/' := by
  unfold splitSemiParams at h
  by_cases hsemi : ';' ∈ p
  · rw [if_pos hsemi] at h
    by_cases hsl : '/' ∈ p
    · rw [if_pos hsl] at h
      cases hsp : splitLast '/' p with
      | none => rw [hsp] at h; exact Or.inl h
      | some q =>
        obtain ⟨a, b⟩ := q
        rw [hsp] at h
        dsimp only [] at h
        obtain ⟨hpe, hnb⟩ := splitLast_eq_some '/' p a b hsp
        cases hsf : splitFirst ';' b with
        | none => rw [hsf] at h; exact Or.inl h
        | some r =>
          obtain ⟨b1, b2⟩ := r
          rw [hsf] at h
          obtain ⟨hbe, -⟩ := splitFirst_eq_some ';' b b1 b2 hsf
          rcases List.mem_append.mp h with h1 | h1
          · left
            rw [hpe]
            exact List.mem_append.mpr (Or.inl h1)
          · rcases List.mem_cons.mp h1 with h2 | h2
            · exact Or.inr h2
            · left
              rw [hpe]
              refine List.mem_append.mpr (Or.inr (List.mem_cons.mpr (Or.inr ?_)))
              rw [hbe]
              exact List.mem_append.mpr (Or.inl h2)
    · rw [if_neg hsl] at h
      cases hsf : splitFirst ';' p with
      | none => rw [hsf] at h; exact Or.inl h
      | some r =>
        obtain ⟨p1, p2⟩ := r
        rw [hsf] at h
        obtain ⟨hpe, -⟩ := splitFirst_eq_some ';' p p1 p2 hsf
        left
        rw [hpe]
        exact List.mem_append.mpr (Or.inl h)
  · rw [if_neg hsemi] at h
    exact Or.inl h

theorem head_splitSemiParams (p : List Char) (hp : p.head? = some '/') :
    (splitSemiParams p).head? = some '/' := by
  unfold splitSemiParams
  by_cases hsemi : ';' ∈ p
  · rw [if_pos hsemi]
    have hsl : '/' ∈ p := by
      cases p with
      | nil => cases hp
      | cons a t =>
        simp only [List.head?_cons, Option.some.injEq] at hp
        subst hp
        exact List.mem_cons_self _ t
    rw [if_pos hsl]
    cases hsp : splitLast '/' p with
    | none => exact hp
    | some q =>
      obtain ⟨a, b⟩ := q
      dsimp only []
      obtain ⟨hpe, -⟩ := splitLast_eq_some '/' p a b hsp
      cases hsf : splitFirst ';' b with
      | none => exact hp
      | some r =>
        obtain ⟨b1, b2⟩ := r
        dsimp only []
        cases a with
        | nil => rfl
        | cons a0 a1 =>
          rw [hpe, List.cons_append] at hp
          rw [List.cons_append]
          simp only [List.head?_cons] at hp ⊢
          exact hp
  · rw [if_neg hsemi]
    exact hp

theorem splitSemiParams_idem (p : List Char) :
    splitSemiParams (splitSemiParams p) = splitSemiParams p := by
  by_cases hsemi : ';' ∈ p
  · by_cases hsl : '/' ∈ p
    · obtain ⟨a, b, hsp⟩ := splitLast_of_mem '/' p hsl
      obtain ⟨hpe, hnb⟩ := splitLast_eq_some '/' p a b hsp
      cases hsf : splitFirst ';' b with
      | none =>
        have he : splitSemiParams p = p := by
          unfold splitSemiParams
          rw [if_pos hsemi, if_pos hsl, hsp]
          dsimp only []
          rw [hsf]
        rw [he, he]
      | some r =>
        obtain ⟨b1, b2⟩ := r
        obtain ⟨hbe, hnb1⟩ := splitFirst_eq_some ';' b b1 b2 hsf
        have he : splitSemiParams p = a ++ '/' :: b1 := by
          unfold splitSemiParams
          rw [if_pos hsemi, if_pos hsl, hsp]
          dsimp only []
          rw [hsf]
        rw [he]
        have hslb1 : '/' ∉ b1 :=
          fun hm => hnb (hbe.symm ▸ List.mem_append.mpr (Or.inl hm))
        by_cases hsemi2 : ';' ∈ a ++ '/' :: b1
        · have hsl2 : '/' ∈ a ++ '/' :: b1 :=
            List.mem_append.mpr (Or.inr (List.mem_cons_self _ _))
          unfold splitSemiParams
          rw [if_pos hsemi2, if_pos hsl2, splitLast_app '/' a b1 hslb1]
          dsimp only []
          rw [splitFirst_not_mem ';' b1 hnb1]
        · unfold splitSemiParams
          rw [if_neg hsemi2]
    · obtain ⟨p1, p2, hsf⟩ := splitFirst_of_mem ';' p hsemi
      obtain ⟨-, hnp1⟩ := splitFirst_eq_some ';' p p1 p2 hsf
      have he : splitSemiParams p = p1 := by
        unfold splitSemiParams
        rw [if_pos hsemi, if_neg hsl, hsf]
      rw [he]
      unfold splitSemiParams
      rw [if_neg hnp1]
  · have he : splitSemiParams p = p := by
      unfold splitSemiParams
      rw [if_neg hsemi]
    rw [he, he]

end PdfFetch

namespace PdfFetch

/-! ### Inversion and recomposition of `urlsplit` -/

theorem urlsplit_ok_inv (w : List Char) (parts : UrlParts) (h : urlsplit w = .ok parts) :
    ∃ u1 : List Char,
      (∀ c ∈ u1, isUnsafeUrlByte c = false) ∧
      parts.scheme = (schemeSplit u1).1 ∧
      parts.netloc = (netlocSplit (schemeSplit u1).2).1 ∧
      parts.path = (querySplit (fragSplit (netlocSplit (schemeSplit u1).2).2).1).1 ∧
      parts.query = (querySplit (fragSplit (netlocSplit (schemeSplit u1).2).2).1).2 ∧
      ¬(('[' ∈ parts.netloc ∧ ']' ∉ parts.netloc) ∨
        (']' ∈ parts.netloc ∧ '[' ∉ parts.netloc)) := by
  unfold urlsplit at h
  dsimp only [] at h
  split at h
  · cases h
  · rename_i hg
    simp only [Except.ok.injEq] at h
    subst h
    refine ⟨(w.dropWhile isC0OrSpace).filter (fun c => !isUnsafeUrlByte c),
      ?_, rfl, rfl, rfl, rfl, hg⟩
    intro c hc
    have := List.of_mem_filter hc
    simpa using this

theorem normalize_url_some_shape (x u : List Char)
    (h : normalize_url (some x) = .ok (some u)) :
    ∃ parts : UrlParts,
      urlsplit (stripSet ['\x7b', '\x7d'] (pyStrip x)) = .ok parts ∧
      (parts.scheme = ['h', 't', 't', 'p'] ∨ parts.scheme = ['h', 't', 't', 'p', 's']) ∧
      (lowerPy parts.netloc).isEmpty = false ∧
      u = lowerPy parts.scheme ++ [':', '/', '/'] ++ lowerPy parts.netloc ++
          splitSemiParams parts.path ++
          (if parts.query.isEmpty then [] else '?' :: parts.query) := by
  unfold normalize_url at h
  dsimp only [] at h
  split at h
  · cases h
  · split at h
    · cases h
    · rename_i parsed hsplit
      split at h
      · rename_i hsch
        split at h
        · cases h
        · rename_i hhost
          simp only [Except.ok.injEq, Option.some.injEq] at h
          refine ⟨parsed, hsplit, hsch, ?_, h.symm⟩
          simpa using hhost
      · cases h

theorem urlsplit_recompose (sch host pq : List Char)
    (hshead : sch.head? = some 'h')
    (hschsp : ∀ rest, schemeSplit (sch ++ ':' :: rest) = (sch, rest))
    (hhostdelim : ∀ c ∈ host, isNetlocDelim c = false)
    (hbr : ¬(('[' ∈ host ∧ ']' ∉ host) ∨ (']' ∈ host ∧ '[' ∉ host)))
    (hclean : ∀ c ∈ sch ++ ':' :: '/' :: '/' :: (host ++ pq), isUnsafeUrlByte c = false)
    (hpq_head : ∀ c, pq.head? = some c → isNetlocDelim c = true) :
    urlsplit (sch ++ ':' :: '/' :: '/' :: (host ++ pq)) =
      .ok ⟨sch, host, (querySplit (fragSplit pq).1).1, (querySplit (fragSplit pq).1).2,
        (fragSplit pq).2⟩ := by
  have hsne : sch ≠ [] := by
    intro he
    rw [he] at hshead
    cases hshead
  unfold urlsplit
  dsimp only []
  have hd1 : (sch ++ ':' :: '/' :: '/' :: (host ++ pq)).dropWhile isC0OrSpace
      = sch ++ ':' :: '/' :: '/' :: (host ++ pq) :=
    dropWhile_eq_self_of_head _ _ (by
      intro c hc
      rw [List.head?_append_of_ne_nil _ hsne, hshead] at hc
      simp only [Option.some.injEq] at hc
      subst hc
      decide)
  have hfl : (sch ++ ':' :: '/' :: '/' :: (host ++ pq)).filter (fun c => !isUnsafeUrlByte c)
      = sch ++ ':' :: '/' :: '/' :: (host ++ pq) :=
    List.filter_eq_self.mpr (fun c hc => by
      show (!isUnsafeUrlByte c) = true
      rw [hclean c hc]
      rfl)
  rw [hd1, hfl, hschsp ('/' :: '/' :: (host ++ pq))]
  dsimp only []
  rw [netlocSplit_app host pq hhostdelim hpq_head]
  dsimp only []
  rw [if_neg hbr]

end PdfFetch

namespace PdfFetch

/-! ### `normalize_url` reproduces its own output -/

theorem normalize_url_recompose
    (sch host path0 query : List Char)
    (hsch : sch = ['h', 't', 't', 'p'] ∨ sch = ['h', 't', 't', 'p', 's'])
    (hschsp : ∀ rest, schemeSplit (sch ++ ':' :: rest) = (sch, rest))
    (hhostne : host.isEmpty = false)
    (hhostlow : lowerPy host = host)
    (hhostdelim : ∀ c ∈ host, isNetlocDelim c = false)
    (hbr : ¬(('[' ∈ host ∧ ']' ∉ host) ∨ (']' ∈ host ∧ '[' ∉ host)))
    (hclean : ∀ c, c ∈ host ∨ c ∈ path0 ∨ c ∈ query → isUnsafeUrlByte c = false)
    (hpath_head : ∀ c, path0.head? = some c → c = '/')
    (hpath_hash : '#' ∉ path0)
    (hpath_q : '?' ∉ path0)
    (hpath_semi : splitSemiParams path0 = path0)
    (hq_hash : '#' ∉ query)
    (hlast : ∀ c,
      (sch ++ [':', '/', '/'] ++ host ++ path0 ++
        (if query.isEmpty then [] else '?' :: query)).getLast? = some c →
      isPySpace c = false ∧ c ≠ '\x7b' ∧ c ≠ '\x7d') :
    normalize_url (some (sch ++ [':', '/', '/'] ++ host ++ path0 ++
        (if query.isEmpty then [] else '?' :: query))) =
      .ok (some (sch ++ [':', '/', '/'] ++ host ++ path0 ++
        (if query.isEmpty then [] else '?' :: query))) := by
  have hshead : sch.head? = some 'h' := by rcases hsch with he | he <;> rw [he] <;> rfl
  have hslow : lowerPy sch = sch := by rcases hsch with he | he <;> rw [he] <;> rfl
  have hsne : sch ≠ [] := by
    intro he
    rw [he] at hshead
    cases hshead
  have hschclean : ∀ c ∈ sch, isUnsafeUrlByte c = false := by
    rcases hsch with he | he <;> rw [he] <;> intro c hc <;> fin_cases hc <;> decide
  by_cases hqe : query.isEmpty = true
  · have hql : (if query.isEmpty then ([] : List Char) else '?' :: query) = [] := if_pos hqe
    rw [hql, List.append_nil] at hlast ⊢
    have hassoc : sch ++ [':', '/', '/'] ++ host ++ path0
        = sch ++ ':' :: '/' :: '/' :: (host ++ path0) := by
      simp [List.append_assoc]
    rw [hassoc] at hlast ⊢
    have huclean : ∀ c ∈ sch ++ ':' :: '/' :: '/' :: (host ++ path0),
        isUnsafeUrlByte c = false := by
      intro c hc
      rcases List.mem_append.mp hc with h1 | h1
      · exact hschclean c h1
      · rcases List.mem_cons.mp h1 with rfl | h1
        · decide
        · rcases List.mem_cons.mp h1 with rfl | h1
          · decide
          · rcases List.mem_cons.mp h1 with rfl | h1
            · decide
            · rcases List.mem_append.mp h1 with h2 | h2
              · exact hclean c (Or.inl h2)
              · exact hclean c (Or.inr (Or.inl h2))
    have hpq_head : ∀ c, path0.head? = some c → isNetlocDelim c = true := by
      intro c hc
      rw [hpath_head c hc]
      decide
    have hurl := urlsplit_recompose sch host path0 hshead hschsp hhostdelim hbr
      huclean hpq_head
    rw [fragSplit_no_hash path0 hpath_hash] at hurl
    dsimp only [] at hurl
    rw [querySplit_no path0 hpath_q] at hurl
    have hhead : (sch ++ ':' :: '/' :: '/' :: (host ++ path0)).head? = some 'h' := by
      rw [List.head?_append_of_ne_nil _ hsne, hshead]
    have hps : pyStrip (sch ++ ':' :: '/' :: '/' :: (host ++ path0))
        = sch ++ ':' :: '/' :: '/' :: (host ++ path0) :=
      dropEnds_eq_self _ _
        (by intro c hc
            rw [hhead] at hc
            simp only [Option.some.injEq] at hc
            subst hc
            decide)
        (fun c hc => (hlast c hc).1)
    have hss : stripSet ['\x7b', '\x7d'] (sch ++ ':' :: '/' :: '/' :: (host ++ path0))
        = sch ++ ':' :: '/' :: '/' :: (host ++ path0) :=
      dropEnds_eq_self _ _
        (by intro c hc
            rw [hhead] at hc
            simp only [Option.some.injEq] at hc
            subst hc
            decide)
        (by intro c hc
            obtain ⟨-, h1, h2⟩ := hlast c hc
            exact contains_pair_eq_false _ _ _ h1 h2)
    have hne2 : (sch ++ ':' :: '/' :: '/' :: (host ++ path0)).isEmpty = false := by
      rcases hsch with he | he <;> rw [he] <;> rfl
    unfold normalize_url
    dsimp only []
    rw [hps, hss, hne2]
    simp only [Bool.false_eq_true, if_false]
    rw [hurl]
    dsimp only []
    rw [if_pos hsch]
    rw [hslow, hhostlow, hpath_semi, hhostne]
    simp [List.append_assoc]
  · have hql : (if query.isEmpty then ([] : List Char) else '?' :: query) = '?' :: query :=
      if_neg hqe
    rw [hql] at hlast ⊢
    have hassoc : sch ++ [':', '/', '/'] ++ host ++ path0 ++ '?' :: query
        = sch ++ ':' :: '/' :: '/' :: (host ++ (path0 ++ '?' :: query)) := by
      simp [List.append_assoc]
    rw [hassoc] at hlast ⊢
    have huclean : ∀ c ∈ sch ++ ':' :: '/' :: '/' :: (host ++ (path0 ++ '?' :: query)),
        isUnsafeUrlByte c = false := by
      intro c hc
      rcases List.mem_append.mp hc with h1 | h1
      · exact hschclean c h1
      · rcases List.mem_cons.mp h1 with rfl | h1
        · decide
        · rcases List.mem_cons.mp h1 with rfl | h1
          · decide
          · rcases List.mem_cons.mp h1 with rfl | h1
            · decide
            · rcases List.mem_append.mp h1 with h2 | h2
              · exact hclean c (Or.inl h2)
              · rcases List.mem_append.mp h2 with h3 | h3
                · exact hclean c (Or.inr (Or.inl h3))
                · rcases List.mem_cons.mp h3 with rfl | h3
                  · decide
                  · exact hclean c (Or.inr (Or.inr h3))
    have hpq_head : ∀ c, (path0 ++ '?' :: query).head? = some c →
        isNetlocDelim c = true := by
      intro c hc
      cases hp0 : path0 with
      | nil =>
        rw [hp0, List.nil_append] at hc
        simp only [List.head?_cons, Option.some.injEq] at hc
        subst hc
        decide
      | cons p0 t =>
        rw [hp0, List.cons_append] at hc
        simp only [List.head?_cons, Option.some.injEq] at hc
        subst hc
        rw [hpath_head p0 (by rw [hp0]; rfl)]
        decide
    have hhash2 : '#' ∉ path0 ++ '?' :: query := by
      intro hm
      rcases List.mem_append.mp hm with h1 | h1
      · exact hpath_hash h1
      · rcases List.mem_cons.mp h1 with h2 | h2
        · exact absurd h2 (by decide)
        · exact hq_hash h2
    have hurl := urlsplit_recompose sch host (path0 ++ '?' :: query) hshead hschsp
      hhostdelim hbr huclean hpq_head
    rw [fragSplit_no_hash _ hhash2] at hurl
    dsimp only [] at hurl
    rw [querySplit_app path0 query hpath_q] at hurl
    have hhead : (sch ++ ':' :: '/' :: '/' :: (host ++ (path0 ++ '?' :: query))).head?
        = some 'h' := by
      rw [List.head?_append_of_ne_nil _ hsne, hshead]
    have hps : pyStrip (sch ++ ':' :: '/' :: '/' :: (host ++ (path0 ++ '?' :: query)))
        = sch ++ ':' :: '/' :: '/' :: (host ++ (path0 ++ '?' :: query)) :=
      dropEnds_eq_self _ _
        (by intro c hc
            rw [hhead] at hc
            simp only [Option.some.injEq] at hc
            subst hc
            decide)
        (fun c hc => (hlast c hc).1)
    have hss : stripSet ['\x7b', '\x7d']
        (sch ++ ':' :: '/' :: '/' :: (host ++ (path0 ++ '?' :: query)))
        = sch ++ ':' :: '/' :: '/' :: (host ++ (path0 ++ '?' :: query)) :=
      dropEnds_eq_self _ _
        (by intro c hc
            rw [hhead] at hc
            simp only [Option.some.injEq] at hc
            subst hc
            decide)
        (by intro c hc
            obtain ⟨-, h1, h2⟩ := hlast c hc
            exact contains_pair_eq_false _ _ _ h1 h2)
    have hne2 : (sch ++ ':' :: '/' :: '/' :: (host ++ (path0 ++ '?' :: query))).isEmpty
        = false := by
      rcases hsch with he | he <;> rw [he] <;> rfl
    unfold normalize_url
    dsimp only []
    rw [hps, hss, hne2]
    simp only [Bool.false_eq_true, if_false]
    rw [hurl]
    dsimp only []
    rw [if_pos hsch]
    rw [hslow, hhostlow, hpath_semi, hhostne]
    simp only [Bool.false_eq_true, if_false]
    rw [if_neg hqe]
    simp [List.append_assoc]

end PdfFetch

namespace PdfFetch

theorem normalize_url_cond_idem (x u : List Char)
    (h : normalize_url (some x) = .ok (some u))
    (hlast : ∀ c, u.getLast? = some c →
      isPySpace c = false ∧ c ≠ '\x7b' ∧ c ≠ '\x7d') :
    normalize_url (some u) = .ok (some u) := by
  obtain ⟨parts, hsplit, hsch, hhostne, hu⟩ := normalize_url_some_shape x u h
  obtain ⟨u1, hu1clean, hS, hN, hP, hQ, hbr0⟩ := urlsplit_ok_inv _ parts hsplit
  have hschsp : ∀ rest, schemeSplit (parts.scheme ++ ':' :: rest) = (parts.scheme, rest) := by
    rcases hsch with he | he <;> rw [he]
    · exact schemeSplit_http
    · exact schemeSplit_https
  have hhostlow : lowerPy (lowerPy parts.netloc) = lowerPy parts.netloc := lowerPy_idem _
  have hnetdelim : ∀ c ∈ parts.netloc, isNetlocDelim c = false := by
    intro c hc
    rw [hN] at hc
    exact netlocFst_delim _ c hc
  have hhostdelim : ∀ c ∈ lowerPy parts.netloc, isNetlocDelim c = false := by
    intro c hc
    cases hbool : isNetlocDelim c with
    | false => rfl
    | true =>
      have hdisj : c = '/' ∨ c = '?' ∨ c = '#' := by
        unfold isNetlocDelim at hbool
        simpa [or_assoc] using hbool
      have hcn : c ∈ parts.netloc := by
        obtain ⟨c0, hc0, hlow⟩ := List.mem_map.mp hc
        have he : c0 = c := by
          rcases hdisj with rfl | rfl | rfl <;>
            exact charLower_preimage c0 _ (by decide) hlow
        rwa [he] at hc0
      rw [hnetdelim c hcn] at hbool
      cases hbool
  have hmemiff : ∀ ch : Char, ¬('a' ≤ ch ∧ ch ≤ 'z') → charLower ch = ch →
      (ch ∈ lowerPy parts.netloc ↔ ch ∈ parts.netloc) := by
    intro ch hch hfix
    constructor
    · intro hm
      obtain ⟨c0, hc0, hlow⟩ := List.mem_map.mp hm
      rwa [charLower_preimage c0 ch hch hlow] at hc0
    · intro hm
      exact List.mem_map.mpr ⟨ch, hm, hfix⟩
  have hbr : ¬(('[' ∈ lowerPy parts.netloc ∧ ']' ∉ lowerPy parts.netloc) ∨
      (']' ∈ lowerPy parts.netloc ∧ '[' ∉ lowerPy parts.netloc)) := by
    rw [hmemiff '[' (by decide) rfl, hmemiff ']' (by decide) rfl]
    exact hbr0
  have hnet_u1 : ∀ c, c ∈ parts.netloc → c ∈ u1 := by
    intro c hc
    rw [hN] at hc
    exact mem_schemeSplit_snd u1 c (netlocFst_mem _ c hc)
  have hpath_u1 : ∀ c, c ∈ parts.path → c ∈ u1 := by
    intro c hc
    rw [hP] at hc
    exact mem_schemeSplit_snd u1 c (netlocSnd_mem _ c (fragFst_mem _ c (queryFst_mem _ c hc)))
  have hq_u1 : ∀ c, c ∈ parts.query → c ∈ u1 := by
    intro c hc
    rw [hQ] at hc
    exact mem_schemeSplit_snd u1 c (netlocSnd_mem _ c (fragFst_mem _ c (querySnd_mem _ c hc)))
  have hclean : ∀ c, c ∈ lowerPy parts.netloc ∨ c ∈ splitSemiParams parts.path ∨
      c ∈ parts.query → isUnsafeUrlByte c = false := by
    intro c hc
    cases hbool : isUnsafeUrlByte c with
    | false => rfl
    | true =>
      exfalso
      have hcc : c = '\t' ∨ c = '\r' ∨ c = '\n' := by
        unfold isUnsafeUrlByte at hbool
        simpa [or_assoc] using hbool
      have hcu1 : c ∈ u1 := by
        rcases hc with h1 | h1 | h1
        · have hcn : c ∈ parts.netloc := by
            obtain ⟨c0, hc0, hlow⟩ := List.mem_map.mp h1
            have he : c0 = c := by
              rcases hcc with rfl | rfl | rfl <;>
                exact charLower_preimage c0 _ (by decide) hlow
            rwa [he] at hc0
          exact hnet_u1 c hcn
        · rcases mem_splitSemiParams _ c h1 with h2 | h2
          · exact hpath_u1 c h2
          · rw [h2] at hbool
            exact absurd hbool (by decide)
        · exact hq_u1 c h1
      rw [hu1clean c hcu1] at hbool
      cases hbool
  have hnne : (netlocSplit (schemeSplit u1).2).1 ≠ [] := by
    intro he
    rw [hN, he] at hhostne
    exact absurd hhostne (by decide)
  have hpath_head : ∀ c, (splitSemiParams parts.path).head? = some c → c = '/' := by
    intro c hc
    cases hpp : parts.path with
    | nil =>
      rw [hpp] at hc
      have hz : splitSemiParams ([] : List Char) = [] := by
        unfold splitSemiParams
        rw [if_neg (List.not_mem_nil ';')]
      rw [hz] at hc
      cases hc
    | cons p0 pt =>
      have hhead0 : parts.path.head? = some p0 := by rw [hpp]; rfl
      have h1 : (fragSplit (netlocSplit (schemeSplit u1).2).2).1.head? = some p0 := by
        rw [hP] at hhead0
        exact queryFst_head _ p0 hhead0
      have h2 : (netlocSplit (schemeSplit u1).2).2.head? = some p0 := fragFst_head _ p0 h1
      have h3 : isNetlocDelim p0 = true := netlocSnd_head _ p0 ⟨hnne, h2⟩
      have hp0mem : p0 ∈ parts.path := by
        rw [hpp]
        exact List.mem_cons_self _ _
      have hnq : p0 ≠ '?' := by
        intro he
        rw [hP] at hp0mem
        exact queryFst_no_q _ (he ▸ hp0mem)
      have hnh : p0 ≠ '#' := by
        intro he
        rw [hP] at hp0mem
        exact fragFst_no_hash _ (queryFst_mem _ '#' (he ▸ hp0mem))
      have hp0 : p0 = '/' := by
        have hdisj : p0 = '/' ∨ p0 = '?' ∨ p0 = '#' := by
          unfold isNetlocDelim at h3
          simpa [or_assoc] using h3
        rcases hdisj with h | h | h
        · exact h
        · exact absurd h hnq
        · exact absurd h hnh
      have hsp := head_splitSemiParams parts.path (by rw [hpp, hp0]; rfl)
      rw [hsp] at hc
      simp only [Option.some.injEq] at hc
      exact hc.symm
  have hpath_hash : '#' ∉ splitSemiParams parts.path := by
    intro hm
    rcases mem_splitSemiParams _ _ hm with h1 | h1
    · rw [hP] at h1
      exact fragFst_no_hash _ (queryFst_mem _ '#' h1)
    · exact absurd h1 (by decide)
  have hpath_q : '?' ∉ splitSemiParams parts.path := by
    intro hm
    rcases mem_splitSemiParams _ _ hm with h1 | h1
    · rw [hP] at h1
      exact queryFst_no_q _ h1
    · exact absurd h1 (by decide)
  have hq_hash : '#' ∉ parts.query := by
    intro hm
    rw [hQ] at hm
    exact fragFst_no_hash _ (querySnd_mem _ '#' hm)
  have hlsch : lowerPy parts.scheme = parts.scheme := by
    rcases hsch with he | he <;> rw [he] <;> rfl
  rw [hlsch] at hu
  rw [hu] at hlast ⊢
  exact normalize_url_recompose parts.scheme (lowerPy parts.netloc)
    (splitSemiParams parts.path) parts.query hsch hschsp hhostne hhostlow hhostdelim
    hbr hclean hpath_head hpath_hash hpath_q (splitSemiParams_idem _) hq_hash hlast

end PdfFetch

namespace PdfFetch

/-- Claim C4 (amended): normalization is idempotent only conditionally.
Renormalizing a non-null `normalize_doi` output returns it unchanged provided
the output contains no percent sign (`unquote` would decode it again) and its
last character is neither whitespace nor a curly brace (the leading
`strip`/`strip` of braces would remove it); renormalizing a non-null
`normalize_url` output returns it unchanged provided its last character is
neither whitespace nor a curly brace.  The unconditional idempotence stated
by the spec is refuted by the counterexamples in
`C4_counterexample`. -/
theorem C4_normalize_idempotent_amended :
    (∀ x d : List Char, normalize_doi (some x) = some d → '%' ∉ d →
      (∀ c, d.getLast? = some c → isPySpace c = false ∧ c ≠ '\x7b' ∧ c ≠ '\x7d') →
      normalize_doi (some d) = some d) ∧
    (∀ x u : List Char, normalize_url (some x) = .ok (some u) →
      (∀ c, u.getLast? = some c → isPySpace c = false ∧ c ≠ '\x7b' ∧ c ≠ '\x7d') →
      normalize_url (some u) = .ok (some u)) :=
  ⟨normalize_doi_cond_idem, normalize_url_cond_idem⟩

/-- Claim C4 counterexample: `normalize_doi` maps `10.1234/a%2525b` to
`10.1234/a%25b` but maps that output to `10.1234/a%b` (the single-pass
`unquote` decodes one more escape level on each application), and
`normalize_url` maps `http://a.com/x?q=\x7d#frag` to `http://a.com/x?q=\x7d`
but maps that output to `http://a.com/x?q=` (the output ends in a brace that
only the second pass strips).  So neither function is idempotent. -/
theorem C4_counterexample :
    normalize_doiS (some "10.1234/a%2525b") = some "10.1234/a%25b" ∧
    normalize_doiS (some "10.1234/a%25b") = some "10.1234/a%b" ∧
    normalize_urlS (some "http://a.com/x?q=\x7d#frag") = .ok (some "http://a.com/x?q=\x7d") ∧
    normalize_urlS (some "http://a.com/x?q=\x7d") = .ok (some "http://a.com/x?q=") :=
  ⟨by rfl, by rfl, by rfl, by rfl⟩

/-- Witness for `C4_normalize_idempotent_amended`: a DOI and a URL whose
normalizations satisfy the side conditions, with each hypothesis discharged
at the concrete input. -/
theorem C4_normalize_idempotent_amended_witness :
    normalize_doi (some "doi:10.1145/Test.x".data) = some "10.1145/test.x".data ∧
    normalize_doi (some "10.1145/test.x".data) = some "10.1145/test.x".data ∧
    normalize_url (some "HTTP://Ex.COM/a;p;q?t=1#f".data) =
      .ok (some "http://ex.com/a?t=1".data) ∧
    normalize_url (some "http://ex.com/a?t=1".data) =
      .ok (some "http://ex.com/a?t=1".data) :=
  ⟨by rfl,
   C4_normalize_idempotent_amended.1 "doi:10.1145/Test.x".data "10.1145/test.x".data
     (by rfl) (by decide)
     (by intro c hc
         rw [show ("10.1145/test.x".data).getLast? = some 'x' from by rfl] at hc
         simp only [Option.some.injEq] at hc
         subst hc
         decide),
   by rfl,
   C4_normalize_idempotent_amended.2 "HTTP://Ex.COM/a;p;q?t=1#f".data
     "http://ex.com/a?t=1".data (by rfl)
     (by intro c hc
         rw [show ("http://ex.com/a?t=1".data).getLast? = some '1' from by rfl] at hc
         simp only [Option.some.injEq] at hc
         subst hc
         decide)⟩

end PdfFetch
